import Mathlib

/-!
Verification development for the GlicoCerto meal-to-dose pipeline
(src/server.js).  JavaScript numbers are modelled by the rationals with
exact arithmetic; the decimal values handled by the code (locale-parsed
grams, one-decimal roundings) all have terminating decimal expansions, so
the string renderings used by the narrative patcher are exact.  Strings
are modelled by lists of characters; each regex of the source is embedded
as an explicit, executable matcher with the same backtracking behaviour.
-/

namespace GlicoCerto

set_option maxRecDepth 40000

/-- Whitespace characters recognised by the JavaScript runtime in trim, in
the regex class backslash-s and by parseFloat (common subset; exotic
Unicode spaces are never produced by the modelled code). -/
def isWs (c : Char) : Bool :=
  c = ' ' || c = '\t' || c = '\n' || c = '\r' || c = '\x0b' || c = '\x0c'

/-- ASCII decimal digit test (the regex class backslash-d). -/
def isDigitC (c : Char) : Bool := 48 ≤ c.toNat && c.toNat ≤ 57

/-- Longest prefix of characters satisfying p, and the remainder. -/
def spanC (p : Char → Bool) : List Char → List Char × List Char
  | [] => ([], [])
  | c :: t =>
    if p c then
      let (a, b) := spanC p t
      (c :: a, b)
    else ([], c :: t)

/-- Drop leading JavaScript whitespace. -/
def skipWs : List Char → List Char
  | [] => []
  | c :: t => if isWs c then skipWs t else c :: t

/-- Decimal digit character for a digit value (argument taken mod 10). -/
def digitChar : ℕ → Char
  | 0 => '0' | 1 => '1' | 2 => '2' | 3 => '3' | 4 => '4'
  | 5 => '5' | 6 => '6' | 7 => '7' | 8 => '8' | _ => '9'

/-- Digits of a natural number, most significant first (fuel variant). -/
def natDigitsAux : ℕ → ℕ → List Char
  | 0, _ => []
  | _ + 1, 0 => []
  | f + 1, n => natDigitsAux f (n / 10) ++ [digitChar (n % 10)]

/-- Decimal digits of a natural number, as JavaScript renders it. -/
def natDigits (n : ℕ) : List Char :=
  if n = 0 then ['0'] else natDigitsAux (n + 1) n

/-- Decimal rendering of an integer, as JavaScript renders it. -/
def intDigits (z : ℤ) : List Char :=
  if z < 0 then '-' :: natDigits z.natAbs else natDigits z.natAbs

/-- Fractional digits of a rational in the interval zero to one; stops at a
zero remainder, so no trailing zeros are produced (fuel bounded). -/
def fracDigitsAux : ℕ → ℚ → List Char
  | 0, _ => []
  | f + 1, q =>
    if q = 0 then []
    else
      let d : ℤ := ⌊q * 10⌋
      digitChar d.toNat :: fracDigitsAux f (q * 10 - (d : ℚ))

/-- Model of the JavaScript conversion String(n) for a number n: exact for
numbers whose decimal expansion terminates within 25 digits, which covers
every number the modelled code converts to text. -/
def ratToDecChars (q : ℚ) : List Char :=
  let a : ℚ := |q|
  let ip : ℕ := (⌊a⌋).toNat
  let fp : ℚ := a - ((⌊a⌋ : ℤ) : ℚ)
  (if q < 0 then ['-'] else []) ++ natDigits ip ++
    (if fp = 0 then [] else '.' :: fracDigitsAux 25 fp)

/-- String wrapper for `ratToDecChars`. -/
def ratToDecString (q : ℚ) : String := ⟨ratToDecChars q⟩

/-- Value of a digit string, most significant first. -/
def digitsToNat (l : List Char) : ℕ :=
  l.foldl (fun a c => 10 * a + (c.toNat - 48)) 0

/-- Reduction-friendly embedding of a natural number into the rationals
(already in normal form, so concrete evaluation stays shallow). -/
def qOfNat (n : ℕ) : ℚ := ⟨Int.ofNat n, 1, one_ne_zero, Nat.coprime_one_right _⟩

/-- Reduction-friendly embedding of an integer into the rationals. -/
def qOfInt (z : ℤ) : ℚ := ⟨z, 1, one_ne_zero, Nat.coprime_one_right _⟩

/-- Optional leading sign of a number literal. -/
def signSplit (l : List Char) : ℚ × List Char :=
  match l with
  | [] => (1, [])
  | c :: t => if c = '-' then (-1, t) else if c = '+' then (1, t) else (1, c :: t)

/-- Optional exponent sign. -/
def expSignSplit (l : List Char) : ℤ × List Char :=
  match l with
  | [] => (1, [])
  | c :: t => if c = '-' then (-1, t) else if c = '+' then (1, t) else (1, c :: t)

/-- Fractional part: a dot followed by digits, or nothing. -/
def fracPart (r1 : List Char) : List Char × List Char :=
  match r1 with
  | [] => ([], [])
  | c :: t => if c = '.' then spanC isDigitC t else ([], c :: t)

/-- Optional exponent applied to an already-parsed mantissa. -/
def expPart (base : ℚ) (r2 : List Char) : ℚ :=
  match r2 with
  | [] => base
  | c :: t =>
    if c = 'e' || c = 'E' then
      let (es, t2) := expSignSplit t
      let (ed, _) := spanC isDigitC t2
      if ed.isEmpty then base else base * (10 : ℚ) ^ (es * Int.ofNat (digitsToNat ed))
    else base

/-- Model of parseFloat: skip leading whitespace and an optional sign, then
read the longest prefix of the form digits, optional dot digits, optional
exponent; none when no leading number exists (the NaN case; an Infinity
literal is also mapped to none, which through the Number.isFinite guard of
the callers yields the same final value 0). -/
def parseFloatQ (s : List Char) : Option ℚ :=
  let p1 := signSplit (skipWs s)
  let p2 := spanC isDigitC p1.2
  let p3 := fracPart p2.2
  if p2.1.isEmpty && p3.1.isEmpty then none
  else
    some (p1.1 *
      expPart (qOfNat (digitsToNat p2.1) + qOfNat (digitsToNat p3.1) / (10 : ℚ) ^ p3.1.length) p3.2)

/-- Global removal of every dot: the first replace of the locale parser. -/
def removeDots (l : List Char) : List Char := l.filter (fun c => c ≠ '.')

/-- Replacement of the first comma by a dot: the second replace of the
locale parser (string-pattern replace touches only the first occurrence). -/
def commaToDot : List Char → List Char
  | [] => []
  | c :: t => if c = ',' then '.' :: t else c :: commaToDot t

/-- JavaScript values that reach the numeric parsers. -/
inductive JSVal where
  | jnull
  | jundef
  | jnum (q : ℚ)
  | jstr (s : String)
  | jbool (b : Bool)
deriving DecidableEq

/-- Model of String(v) for the values above. -/
def jsValToChars : JSVal → List Char
  | .jnull => ("null").data
  | .jundef => ("undefined").data
  | .jnum q => ratToDecChars q
  | .jstr s => s.data
  | .jbool true => ("true").data
  | .jbool false => ("false").data

/-- The locale numeric parser num (server.js line 54):
parseFloat of String(s) with all dots removed and the first comma turned
into a dot, guarded by Number.isFinite with fallback 0. -/
def num (v : JSVal) : ℚ :=
  (parseFloatQ (commaToDot (removeDots (jsValToChars v)))).getD 0

/-- numBR (server.js line 401): the same pipeline applied to a string; a
falsy input is first replaced by the empty string, which parses to 0. -/
def numBR (s : String) : ℚ :=
  (parseFloatQ (commaToDot (removeDots s.data))).getD 0

/-! ### Regex matchers

Each regex of the source is embedded as an executable matcher.  A matcher
tries to match at the start of its input and yields the length of the
consumed prefix; finding a match inside a string tries every start
position from the left, exactly as the JavaScript engine does.  Matchers
are written tail-recursively over indices so that concrete narratives
evaluate with shallow recursion. -/

/-- Case folding for the regex flag i, covering the characters that occur
in the embedded patterns (ASCII letters and the accented i). -/
def foldC (c : Char) : Char :=
  if 65 ≤ c.toNat && c.toNat ≤ 90 then Char.ofNat (c.toNat + 32)
  else if c = 'Í' then 'í'
  else c

/-- Case-insensitive literal matcher (accumulator form). -/
def litCIAux : List Char → List Char → ℕ → Option ℕ
  | [], _, acc => some acc
  | _ :: _, [], _ => none
  | p :: ps, c :: t, acc =>
    if foldC c = foldC p then litCIAux ps t (acc + 1) else none

/-- Case-insensitive literal matcher. -/
def litCI (pat : String) : List Char → Option ℕ := fun l => litCIAux pat.data l 0

/-- Case-sensitive literal matcher (accumulator form). -/
def litCSAux : List Char → List Char → ℕ → Option ℕ
  | [], _, acc => some acc
  | _ :: _, [], _ => none
  | p :: ps, c :: t, acc =>
    if c = p then litCSAux ps t (acc + 1) else none

/-- Case-sensitive literal matcher. -/
def litCS (pat : String) : List Char → Option ℕ := fun l => litCSAux pat.data l 0

/-- Length of the longest prefix inside a character class. -/
def classCountAux (p : Char → Bool) : List Char → ℕ → ℕ
  | [], acc => acc
  | c :: t, acc => if p c then classCountAux p t (acc + 1) else acc

/-- Greedy star over a character class (never fails). -/
def classStarN (p : Char → Bool) : List Char → Option ℕ :=
  fun l => some (classCountAux p l 0)

/-- Greedy plus over a character class (at least one character). -/
def classPlusN (p : Char → Bool) : List Char → Option ℕ :=
  fun l =>
    let n := classCountAux p l 0
    if n = 0 then none else some n

/-- Single character from a class. -/
def charN (p : Char → Bool) : List Char → Option ℕ := fun l =>
  match l with
  | [] => none
  | c :: _ => if p c then some 1 else none

/-- Sequential composition of matchers. -/
def seqN (m1 m2 : List Char → Option ℕ) : List Char → Option ℕ := fun l =>
  match m1 l with
  | none => none
  | some n1 =>
    match m2 (l.drop n1) with
    | none => none
    | some n2 => some (n1 + n2)

/-- Greedy optional matcher (a question mark). -/
def optN (m : List Char → Option ℕ) : List Char → Option ℕ := fun l =>
  match m l with
  | some n => some n
  | none => some 0

/-- Ordered alternation (the left alternative is preferred). -/
def orN (m1 m2 : List Char → Option ℕ) : List Char → Option ℕ := fun l =>
  match m1 l with
  | some n => some n
  | none => m2 l

/-- The lazy any-character star followed by the given stop matcher: consume
as little as possible until the stop matcher succeeds, and include its
match (accumulator form). -/
def lazyUntilAux (stop : List Char → Option ℕ) : ℕ → List Char → Option ℕ
  | acc, [] => (stop []).map (fun n => acc + n)
  | acc, c :: t =>
    match stop (c :: t) with
    | some n => some (acc + n)
    | none => lazyUntilAux stop (acc + 1) t

/-- The lazy any-character star followed by the stop matcher. -/
def lazyUntilN (stop : List Char → Option ℕ) : List Char → Option ℕ :=
  fun l => lazyUntilAux stop 0 l

/-- Leftmost match of a matcher inside a string: start index and length
(accumulator form). -/
def findFirstAux (m : List Char → Option ℕ) : ℕ → List Char → Option (ℕ × ℕ)
  | i, [] => (m []).map (fun n => (i, n))
  | i, c :: t =>
    match m (c :: t) with
    | some n => some (i, n)
    | none => findFirstAux m (i + 1) t

/-- Leftmost match of a matcher inside a string: start index and length. -/
def findFirstN (m : List Char → Option ℕ) (l : List Char) : Option (ℕ × ℕ) :=
  findFirstAux m 0 l

/-- Global removal of every match, scanning left to right and resuming
after each removed match, as the JavaScript replace with the g flag and an
empty replacement does (fuel at least the input length). -/
def stripAllN (m : List Char → Option ℕ) : ℕ → List Char → List Char
  | 0, l => l
  | f + 1, l =>
    match findFirstN m l with
    | none => l
    | some (i, n) => l.take i ++ stripAllN m f (l.drop (i + n))

/-- All matches, scanning left to right and resuming after each match
(the g flag; fuel at least the input length). -/
def collectAllN (m : List Char → Option ℕ) : ℕ → List Char → List (List Char)
  | 0, _ => []
  | f + 1, l =>
    match findFirstN m l with
    | none => []
    | some (i, n) => (l.drop i).take n :: collectAllN m f (l.drop (i + n))

/-- Replacement of the first match, the replacement being built from the
matched text. -/
def replaceFirstN (m : List Char → Option ℕ) (repl : List Char → List Char)
    (l : List Char) : List Char :=
  match findFirstN m l with
  | none => l
  | some (i, n) => l.take i ++ repl ((l.drop i).take n) ++ l.drop (i + n)

/-- Tag removal: the replace of the pattern open-angle one-or-more-non-angle
close-angle (g flag) with the empty string. -/
def stripTagsAux : ℕ → List Char → List Char
  | 0, l => l
  | _ + 1, [] => []
  | f + 1, c :: t =>
    if c = '<' then
      let (mid, rest1) := spanC (fun d => d ≠ '>') t
      match rest1 with
      | r0 :: rest =>
        if r0 = '>' then
          if mid.isEmpty then c :: stripTagsAux f t else stripTagsAux f rest
        else c :: stripTagsAux f t
      | [] => c :: stripTagsAux f t
    else c :: stripTagsAux f t

/-- Wrapper for `stripTagsAux` with sufficient fuel. -/
def stripTagsL (l : List Char) : List Char := stripTagsAux (l.length + 1) l

/-- JavaScript trim: leading and trailing whitespace removed. -/
def trimJS (l : List Char) : List Char :=
  ((l.dropWhile isWs).reverse.dropWhile isWs).reverse

/-! ### Macro extractor: the table scan parseProtGordFromTable -/

/-- The regex for the tbody block (first match only in the source). -/
def tbodyM : List Char → Option ℕ :=
  seqN (litCI ("<tbody>")) (lazyUntilN (litCI ("</tbody>")))

/-- The regex for one table row. -/
def trM : List Char → Option ℕ :=
  seqN (litCI ("<tr")) (lazyUntilN (litCI ("</tr>")))

/-- The regex for one table cell. -/
def tdM : List Char → Option ℕ :=
  seqN (litCI ("<td")) (lazyUntilN (litCI ("</td>")))

/-- Result record of the table scan (protein and fat totals in grams plus
the per-item parts used by the narrative breakdown). -/
structure PGTable where
  prot_g : ℚ
  gord_g : ℚ
  partsP : List ℚ
  partsG : List ℚ
deriving DecidableEq

/-- Cells of a row. -/
def tableRowCells (row : List Char) : List (List Char) :=
  collectAllN tdM (row.length + 1) row

/-- Numeric value of cell i of a row: tags removed, trimmed, locale-parsed. -/
def cellValue (tds : List (List Char)) (i : ℕ) : ℚ :=
  numBR ⟨trimJS (stripTagsL (tds.getD i []))⟩

/-- Truthiness-guarded protein accumulation of the row loop. -/
def pgAddProt (st : PGTable) (p : ℚ) : PGTable :=
  if p ≠ 0 then { st with prot_g := st.prot_g + p, partsP := st.partsP ++ [p] }
  else st

/-- Truthiness-guarded fat accumulation of the row loop. -/
def pgAddGord (st : PGTable) (g : ℚ) : PGTable :=
  if g ≠ 0 then { st with gord_g := st.gord_g + g, partsG := st.partsG ++ [g] }
  else st

/-- One row of the accumulation loop of parseProtGordFromTable: rows with
fewer than six cells are skipped; a parsed value is added to the running
total (and recorded as a part) only when it is truthy. -/
def pgRowStep (st : PGTable) (row : List Char) : PGTable :=
  if 6 ≤ (tableRowCells row).length then
    pgAddGord (pgAddProt st (cellValue (tableRowCells row) 4))
      (cellValue (tableRowCells row) 5)
  else st

/-- The text of the first tbody block, when there is one. -/
def tbodyBlockOf (html : List Char) : Option (List Char) :=
  match findFirstN tbodyM html with
  | none => none
  | some (i, n) => some ((html.drop i).take n)

/-- The rows of the first tbody block (empty when there is none). -/
def tbodyRowsOf (html : List Char) : List (List Char) :=
  match tbodyBlockOf html with
  | none => []
  | some tb => collectAllN trM (tb.length + 1) tb

/-- parseProtGordFromTable (server.js lines 404 to 423): find the first
tbody block, scan its rows, and accumulate the fifth and sixth cells. -/
def parseProtGordFromTable (html : List Char) : PGTable :=
  match tbodyBlockOf html with
  | none => ⟨0, 0, [], []⟩
  | some tb =>
    (collectAllN trM (tb.length + 1) tb).foldl pgRowStep ⟨0, 0, [], []⟩

/-- Specification-side protein total: the plain sum, over every row of the
table body having at least six cells, of the locale-parsed fifth cell. -/
def protSumSpec (html : List Char) : ℚ :=
  (((tbodyRowsOf html).filter (fun r => 6 ≤ (tableRowCells r).length)).map
    (fun r => cellValue (tableRowCells r) 4)).sum

/-- Specification-side fat total: the same sum over the sixth cell. -/
def gordSumSpec (html : List Char) : ℚ :=
  (((tbodyRowsOf html).filter (fun r => 6 ≤ (tableRowCells r).length)).map
    (fun r => cellValue (tableRowCells r) 5)).sum

/-! ### The fallback computePgFromHtml (server.js lines 235 to 279) -/

/-- List-level locale parser (the local toNum of computePgFromHtml has the
same body as numBR). -/
def toNumL (l : List Char) : ℚ :=
  (parseFloatQ (commaToDot (removeDots l))).getD 0

/-- JavaScript toLowerCase for the characters produced by the modelled
narratives (ASCII letters and the Latin-1 accented uppercase letters). -/
def lowerC (c : Char) : Char :=
  if 65 ≤ c.toNat && c.toNat ≤ 90 then Char.ofNat (c.toNat + 32)
  else if 192 ≤ c.toNat && c.toNat ≤ 222 && c.toNat ≠ 215 then Char.ofNat (c.toNat + 32)
  else c

/-- Lowercasing of a string. -/
def toLowerL (l : List Char) : List Char := l.map lowerC

/-- Characters of the class digit-dot-comma. -/
def isDigitDotComma (c : Char) : Bool := isDigitC c || c = '.' || c = ','

/-- A capture match inside a string: start of the whole match, offset and
length of the capture group relative to the start, and total length. -/
structure CapMatch where
  start : ℕ
  capOff : ℕ
  capLen : ℕ
  totLen : ℕ
deriving DecidableEq

/-- Leftmost capture match (accumulator form).  The matcher argument yields
capture offset, capture length and total length relative to the position. -/
def findFirstCapAux (m : List Char → Option (ℕ × ℕ × ℕ)) :
    ℕ → List Char → Option CapMatch
  | i, [] => (m []).map (fun v => ⟨i, v.1, v.2.1, v.2.2⟩)
  | i, c :: t =>
    match m (c :: t) with
    | some v => some ⟨i, v.1, v.2.1, v.2.2⟩
    | none => findFirstCapAux m (i + 1) t

/-- Leftmost capture match inside a string. -/
def findFirstCap (m : List Char → Option (ℕ × ℕ × ℕ)) (l : List Char) :
    Option CapMatch :=
  findFirstCapAux m 0 l

/-- Text of a capture. -/
def capTextOf (l : List Char) (v : CapMatch) : List Char :=
  (l.drop (v.start + v.capOff)).take v.capLen

/-- The tail of the protein-total and fat-total regexes after the name:
optional whitespace, an optional colon or hyphen, optional whitespace, the
captured digit-dot-comma run, optional whitespace and the letter g.  The
argument base is the length already consumed by the name part. -/
def pgTailCap (base : ℕ) (l : List Char) : Option (ℕ × ℕ × ℕ) :=
  let n1 := classCountAux isWs l 0
  let l1 := l.drop n1
  let n2 : ℕ :=
    match l1 with
    | c :: _ => if c = ':' || c = '-' then 1 else 0
    | [] => 0
  let l2 := l1.drop n2
  let n3 := classCountAux isWs l2 0
  let l3 := l2.drop n3
  let cap := classCountAux isDigitDotComma l3 0
  if cap = 0 then none
  else
    let l4 := l3.drop cap
    let n4 := classCountAux isWs l4 0
    match l4.drop n4 with
    | c :: _ =>
      if foldC c = 'g' then
        some (base + n1 + n2 + n3, cap, base + n1 + n2 + n3 + cap + n4 + 1)
      else none
    | [] => none

/-- The class bracket-i-accented-i of the protein regex. -/
def isIorAccI (c : Char) : Bool := foldC c = 'i' || foldC c = 'í'

/-- Matcher of the regex protein-name optional-total colon number g (the
optional group total backtracks when the tail fails after it). -/
def protTotalCapM (l : List Char) : Option (ℕ × ℕ × ℕ) :=
  match seqN (seqN (litCI ("prote")) (charN isIorAccI)) (litCI ("na")) l with
  | none => none
  | some n0 =>
    match seqN (classPlusN isWs) (litCI ("total")) (l.drop n0) with
    | some nt =>
      match pgTailCap (n0 + nt) (l.drop (n0 + nt)) with
      | some v => some v
      | none => pgTailCap n0 (l.drop n0)
    | none => pgTailCap n0 (l.drop n0)

/-- Matcher of the fat-total regex. -/
def gordTotalCapM (l : List Char) : Option (ℕ × ℕ × ℕ) :=
  match litCI ("gordura") l with
  | none => none
  | some n0 =>
    match seqN (classPlusN isWs) (litCI ("total")) (l.drop n0) with
    | some nt =>
      match pgTailCap (n0 + nt) (l.drop (n0 + nt)) with
      | some v => some v
      | none => pgTailCap n0 (l.drop n0)
    | none => pgTailCap n0 (l.drop n0)

/-- Value extracted by one of the total regexes, 0 when there is no match
(mirroring if mProt then protG equals toNum of the capture). -/
def totalRegexValue (m : List Char → Option (ℕ × ℕ × ℕ)) (l : List Char) : ℚ :=
  match findFirstCap m l with
  | none => 0
  | some v => toNumL (capTextOf l v)

/-- Is the character h or d (the tag-name class of the cell regex). -/
def isHorD (c : Char) : Bool := foldC c = 'h' || foldC c = 'd'

/-- Lazy scan yielding the lengths of the inner text and of the stop match
separately (accumulator form). -/
def lazySplitAux (stop : List Char → Option ℕ) : ℕ → List Char → Option (ℕ × ℕ)
  | acc, [] => (stop []).map (fun n => (acc, n))
  | acc, c :: t =>
    match stop (c :: t) with
    | some n => some (acc, n)
    | none => lazySplitAux stop (acc + 1) t

/-- Capture matcher of the cell regex of the heuristic table scan:
open tag t-h-or-d with attributes, captured inner text, close tag. -/
def thtdCapM (l : List Char) : Option (ℕ × ℕ × ℕ) :=
  match seqN (seqN (litCI ("<t")) (charN isHorD))
      (seqN (classStarN (fun c => c ≠ '>')) (litCS (">"))) l with
  | none => none
  | some nOpen =>
    match lazySplitAux (seqN (seqN (litCI ("</t")) (charN isHorD)) (litCS (">"))) 0
        (l.drop nOpen) with
    | none => none
    | some (inner, stop) => some (nOpen, inner, nOpen + inner + stop)

/-- All capture matches (the matchAll loop), resuming after each match. -/
def collectAllCap (m : List Char → Option (ℕ × ℕ × ℕ)) :
    ℕ → List Char → List (List Char)
  | 0, _ => []
  | f + 1, l =>
    match findFirstCap m l with
    | none => []
    | some v => capTextOf l v :: collectAllCap m f (l.drop (v.start + v.totLen))

/-- First run of digit-dot-comma characters (the match of the number
regex), empty when there is none. -/
def firstNumRun (l : List Char) : List Char :=
  match findFirstN (classPlusN isDigitDotComma) l with
  | none => []
  | some (i, n) => (l.drop i).take n

/-- Case-insensitive substring test. -/
def containsCI (pat : String) (l : List Char) : Bool :=
  (findFirstN (litCI pat) l).isSome

/-- Per-cell step of the heuristic sums: a cell contributes its first
number to the protein sum when its own text mentions prote, and to the fat
sum when it mentions gordu or fat; zero values are skipped. -/
def pgHeuristicCell (acc : ℚ × ℚ) (cell : List Char) : ℚ × ℚ :=
  let plain := toLowerL (trimJS (stripTagsL cell))
  let val := toNumL (firstNumRun (stripTagsL cell))
  if val = 0 then acc
  else
    (if containsCI ("prote") plain then acc.1 + val else acc.1,
     if containsCI ("gordu") plain || containsCI ("fat") plain then acc.2 + val
     else acc.2)

/-- The heuristic table sums of computePgFromHtml: every tr block of the
whole text, rows with fewer than two cells skipped. -/
def pgFromTableHeuristic (txt : List Char) : ℚ × ℚ :=
  (collectAllN trM (txt.length + 1) txt).foldl
    (fun acc row =>
      let cells := collectAllCap thtdCapM (row.length + 1) row
      if cells.length < 2 then acc
      else cells.foldl pgHeuristicCell acc)
    (0, 0)

/-- JavaScript or on numbers: the left value unless it is falsy. -/
def jsOrQ (a b : ℚ) : ℚ := if a = 0 then b else a

/-- Result record of computePgFromHtml. -/
structure PgHtmlResult where
  protG : ℚ
  gordG : ℚ
  choEq : ℚ
  kcalP : ℚ
  kcalG : ℚ
  kcal : ℚ
deriving DecidableEq

/-- computePgFromHtml (server.js lines 235 to 279): recover protein and fat
grams from total sentences or from the table heuristic, then apply the
formula protG times percent plus gordG times 0.225 — the historical
divide-by-four variant, not the canonical divide-by-ten rule. -/
def computePgFromHtml (html : String) (percent : ℚ) : PgHtmlResult :=
  let txt := html.data
  let protG0 := totalRegexValue protTotalCapM txt
  let gordG0 := totalRegexValue gordTotalCapM txt
  let pg :=
    if ¬ protG0 > 0 ∨ ¬ gordG0 > 0 then
      let s := pgFromTableHeuristic txt
      (if s.1 > 0 then jsOrQ protG0 s.1 else protG0,
       if s.2 > 0 then jsOrQ gordG0 s.2 else gordG0)
    else (protG0, gordG0)
  { protG := pg.1
    gordG := pg.2
    choEq := pg.1 * jsOrQ percent 0 + pg.2 * (0.225 : ℚ)
    kcalP := pg.1 * 4
    kcalG := pg.2 * 9
    kcal := pg.1 * 4 + pg.2 * 9 }

/-- The canonical protein-fat conversion rule of enforcePgRule and of the
system prompt: protein kilocalories weighted by the protein percentage
plus ten percent of the fat kilocalories, divided by ten. -/
def canonicalPgEquiv (prot_g gord_g protPct : ℚ) : ℚ :=
  (prot_g * 4 * (protPct / 100) + gord_g * 9 * (0.10 : ℚ)) / 10

/-- The failing input of the fallback-formula claim. -/
def pgC2Html : String := "Proteína total: 20 g e Gordura total: 10 g"

/-! ### Patient configuration, defaulting and the dose block -/

/-- Patient configuration fields read by the modelled code.  Numeric fields
are rationals or absent; NaN-valued strings from the store are outside the
model. -/
structure Cfg where
  icr : Option ℚ := none
  insulina_cho : Option ℚ := none
  isf : Option ℚ := none
  glicose_insulina : Option ℚ := none
  target : Option ℚ := none
  pct_cal_pf : Option ℚ := none
  pg_strategy : Option String := none
  insulina_rapida : Option String := none

/-- JavaScript or applied to an optional field: the value unless it is
missing or falsy (zero). -/
def jsOrField (v : Option ℚ) (w : ℚ) : ℚ :=
  match v with
  | some q => if q = 0 then w else q
  | none => w

/-- Number(cfg.icr or cfg.insulina_cho or 10). -/
def icrOf (cfg : Cfg) : ℚ := jsOrField cfg.icr (jsOrField cfg.insulina_cho 10)

/-- Number(cfg.isf or cfg.glicose_insulina or 50). -/
def isfOf (cfg : Cfg) : ℚ := jsOrField cfg.isf (jsOrField cfg.glicose_insulina 50)

/-- Number(cfg.target or 100). -/
def targetOf (cfg : Cfg) : ℚ := jsOrField cfg.target 100

/-- The strategy string with the default and the trim of the handlers. -/
def stratOf (cfg : Cfg) : String :=
  ⟨trimJS (match cfg.pg_strategy with
    | some s => if s = "" then ("regular_now").data else s.data
    | none => ("regular_now").data)⟩

/-- Clamp to the interval from 0 to 100. -/
def clamp0100 (q : ℚ) : ℚ := max 0 (min 100 q)

/-- The protein percentage as read by enforcePgRule: nullish default 0,
then clamped (server.js line 516). -/
def enforceProtPct (cfg : Cfg) : ℚ := clamp0100 ((cfg.pct_cal_pf).getD 0)

/-- The protein fraction as read by the chat handlers for the fallback:
nullish default 100, clamped, divided by 100 (server.js line 597). -/
def chatPercent (cfg : Cfg) : ℚ := clamp0100 ((cfg.pct_cal_pf).getD 100) / 100

/-- Math.round of the utility r0: half rounds up (toward positive
infinity), as Math.round does. -/
def r0 (q : ℚ) : ℤ := ⌊q + 1 / 2⌋

/-- The dose block of the chat handlers (server.js lines 620 to 628). -/
structure ChatDoses where
  doseCho : ℚ
  doseCor : ℚ
  dosePg : ℚ
  rapidTotalU : ℤ
  regularU : ℤ
deriving DecidableEq

/-- Doses computed by both chat handlers from the recovered totals, the
glucose reading and the configuration. -/
def chatDoses (cfg : Cfg) (carbo_g pg_cho_equiv_g glicemia : ℚ) : ChatDoses :=
  let doseCho := carbo_g / icrOf cfg
  let doseCor := max 0 ((glicemia - targetOf cfg) / isfOf cfg)
  let dosePg := if stratOf cfg = "regular_now" then pg_cho_equiv_g / icrOf cfg else 0
  { doseCho := doseCho
    doseCor := doseCor
    dosePg := dosePg
    rapidTotalU := r0 (doseCho + doseCor)
    regularU := r0 dosePg }

/-- The configuration of the split-strategy counterexample. -/
def cfgSplit : Cfg := { pg_strategy := some "split_rapid" }

/-- Concrete table for the tilde claim: the first row carries the
conservative-estimate marker in its protein and fat cells, the second row
carries plain numbers. -/
def tildeTable : String :=
  "<tbody><tr><td>arroz</td><td>100 g</td><td>28 g</td><td>~130 kcal</td><td>~7 g</td><td>~2 g</td></tr><tr><td>ovo</td><td>50 g</td><td>0 g</td><td>~70 kcal</td><td>3 g</td><td>1 g</td></tr></tbody>"

/-! ### Code fences, word characters and shared string helpers -/

/-- stripFences (server.js line 61): global removal of the code-fence
markers (the alternation prefers the html variant), then trim. -/
def stripFences (s : String) : List Char :=
  trimJS (stripAllN (orN (litCS ("```html")) (litCS ("```"))) (s.data.length + 1) s.data)

/-- The regex word class (ASCII letters, digits, underscore), used by the
word-boundary assertions. -/
def wordCharB (c : Char) : Bool :=
  isDigitC c || (97 ≤ c.toNat && c.toNat ≤ 122) || (65 ≤ c.toNat && c.toNat ≤ 90) || c = '_'

/-- Prefix test on character lists. -/
def startsWithL : List Char → List Char → Bool
  | [], _ => true
  | _ :: _, [] => false
  | p :: ps, c :: t => c = p && startsWithL ps t

/-- JavaScript startsWith. -/
def jsStartsWith (s pre : String) : Bool := startsWithL pre.data s.data

/-- JavaScript or on strings: the left value unless it is falsy (empty). -/
def jsOrStr (a : Option String) (b : String) : String :=
  match a with
  | some s => if s = "" then b else s
  | none => b

/-- Lazy class-restricted scan: consume as little as possible from the
given class until the stop matcher succeeds; fails on a character outside
the class (the idiom bracket-caret-angle-star-lazy).  Yields the lazy
length and the stop length. -/
def lazyClassUntilAux (cls : Char → Bool) (stop : List Char → Option ℕ) :
    ℕ → List Char → Option (ℕ × ℕ)
  | acc, [] => (stop []).map (fun n => (acc, n))
  | acc, c :: t =>
    match stop (c :: t) with
    | some n => some (acc, n)
    | none => if cls c then lazyClassUntilAux cls stop (acc + 1) t else none

/-! ### Flat JSON (the machine-readable data block)

The data block mandated by the prompt is a flat object of primitive
values.  JSON parsing is modelled for exactly that shape: a parse failure
(including nested containers, outside the mandated shape) takes the same
path as a JSON.parse exception, which the source catches by leaving the
block unchanged and the extracted numbers at 0. -/

/-- Primitive JSON values. -/
inductive JPrim where
  | jnull
  | jbool (b : Bool)
  | jnum (q : ℚ)
  | jstr (s : List Char)
deriving DecidableEq

/-- JSON whitespace. -/
def isJsonWs (c : Char) : Bool := c = ' ' || c = '\t' || c = '\n' || c = '\r'

/-- Hexadecimal digit value. -/
def hexVal (c : Char) : Option ℕ :=
  if 48 ≤ c.toNat && c.toNat ≤ 57 then some (c.toNat - 48)
  else if 97 ≤ c.toNat && c.toNat ≤ 102 then some (c.toNat - 87)
  else if 65 ≤ c.toNat && c.toNat ≤ 70 then some (c.toNat - 55)
  else none

/-- Body of a JSON string after the opening quote: content and remainder
after the closing quote (fuel bounded; acc reversed). -/
def parseJStringAux : ℕ → List Char → List Char → Option (List Char × List Char)
  | 0, _, _ => none
  | _ + 1, [], _ => none
  | f + 1, c :: t, acc =>
    if c = '"' then some (acc.reverse, t)
    else if c = '\\' then
      match t with
      | [] => none
      | e :: t2 =>
        if e = '"' then parseJStringAux f t2 ('"' :: acc)
        else if e = '\\' then parseJStringAux f t2 ('\\' :: acc)
        else if e = '/' then parseJStringAux f t2 ('/' :: acc)
        else if e = 'b' then parseJStringAux f t2 ('\x08' :: acc)
        else if e = 'f' then parseJStringAux f t2 ('\x0c' :: acc)
        else if e = 'n' then parseJStringAux f t2 ('\n' :: acc)
        else if e = 'r' then parseJStringAux f t2 ('\r' :: acc)
        else if e = 't' then parseJStringAux f t2 ('\t' :: acc)
        else if e = 'u' then
          match t2 with
          | h1 :: h2 :: h3 :: h4 :: t3 =>
            match hexVal h1, hexVal h2, hexVal h3, hexVal h4 with
            | some a, some b, some cc, some d =>
              parseJStringAux f t3 (Char.ofNat (((a * 16 + b) * 16 + cc) * 16 + d) :: acc)
            | _, _, _, _ => none
          | _ => none
        else none
    else parseJStringAux f t (c :: acc)

/-- JSON number: optional minus, digits, optional fraction, optional
exponent (lenient about leading zeros, which never occur in the modelled
blocks). -/
def parseJsonNumber (l : List Char) : Option (ℚ × List Char) :=
  let (neg, l1) : Bool × List Char :=
    match l with
    | c :: t => if c = '-' then (true, t) else (false, l)
    | [] => (false, [])
  let d1 := classCountAux isDigitC l1 0
  if d1 = 0 then none
  else
    let ip := qOfNat (digitsToNat (l1.take d1))
    let l2 := l1.drop d1
    let (fp, l3) : ℚ × List Char :=
      match l2 with
      | c :: t =>
        if c = '.' then
          let d2 := classCountAux isDigitC t 0
          (qOfNat (digitsToNat (t.take d2)) / (10 : ℚ) ^ d2, t.drop d2)
        else (0, l2)
      | [] => (0, [])
    let base := ip + fp
    let (val, l4) : ℚ × List Char :=
      match l3 with
      | c :: t =>
        if c = 'e' || c = 'E' then
          let (es, t2) := expSignSplit t
          let d3 := classCountAux isDigitC t2 0
          if d3 = 0 then (base, l3)
          else (base * (10 : ℚ) ^ (es * Int.ofNat (digitsToNat (t2.take d3))), t2.drop d3)
        else (base, l3)
      | [] => (base, [])
    some (if neg then -val else val, l4)

/-- Fractional digit check for the number grammar: JSON requires at least
one digit after the dot; the lenient model above accepts an empty run,
which never arises in the modelled blocks. -/
def dropJsonWs (l : List Char) : List Char := l.drop (classCountAux isJsonWs l 0)

/-- One JSON primitive value. -/
def parseJPrim (l : List Char) : Option (JPrim × List Char) :=
  match l with
  | [] => none
  | c :: t =>
    if c = '"' then (parseJStringAux (t.length + 1) t []).map (fun v => (.jstr v.1, v.2))
    else if c = 't' then (litCS ("rue") t).map (fun n => (.jbool true, t.drop n))
    else if c = 'f' then (litCS ("alse") t).map (fun n => (.jbool false, t.drop n))
    else if c = 'n' then (litCS ("ull") t).map (fun n => (.jnull, t.drop n))
    else (parseJsonNumber l).map (fun v => (.jnum v.1, v.2))

/-- Key lookup in a flat object. -/
def jlookup : List (List Char × JPrim) → List Char → Option JPrim
  | [], _ => none
  | kv :: t, k => if kv.1 = k then some kv.2 else jlookup t k

/-- Does the object carry the key. -/
def jobjHasKey (kvs : List (List Char × JPrim)) (k : List Char) : Bool :=
  kvs.any (fun kv => kv.1 == k)

/-- Property assignment: replace the value in place when the key exists,
append otherwise (JavaScript object semantics, also the last-wins rule of
duplicate keys during parsing). -/
def jobjSetKey (kvs : List (List Char × JPrim)) (k : List Char) (v : JPrim) :
    List (List Char × JPrim) :=
  if jobjHasKey kvs k then kvs.map (fun kv => if kv.1 = k then (kv.1, v) else kv)
  else kvs ++ [(k, v)]

/-- Members of a flat object after the opening brace (fuel bounded). -/
def parseJMembersAux : ℕ → List Char → List (List Char × JPrim) →
    Option (List (List Char × JPrim) × List Char)
  | 0, _, _ => none
  | f + 1, l, acc =>
    match dropJsonWs l with
    | [] => none
    | c :: t =>
      if c = '"' then
        match parseJStringAux (t.length + 1) t [] with
        | none => none
        | some (key, r1) =>
          match dropJsonWs r1 with
          | ':' :: r2 =>
            match parseJPrim (dropJsonWs r2) with
            | none => none
            | some (v, r3) =>
              let acc2 := jobjSetKey acc key v
              match dropJsonWs r3 with
              | ',' :: r4 => parseJMembersAux f r4 acc2
              | '\x7d' :: r4 => some (acc2, r4)
              | _ => none
          | _ => none
      else none

/-- A complete flat JSON object: the whole input must be consumed (modulo
surrounding whitespace), as JSON.parse demands. -/
def parseFlatObj (l : List Char) : Option (List (List Char × JPrim)) :=
  match dropJsonWs l with
  | '\x7b' :: t =>
    match dropJsonWs t with
    | '\x7d' :: r => if dropJsonWs r = [] then some [] else none
    | _ =>
      match parseJMembersAux (t.length + 1) t [] with
      | none => none
      | some (kvs, rest) => if dropJsonWs rest = [] then some kvs else none
  | _ => none

/-- Escaping of JSON.stringify for one character. -/
def escChar (c : Char) : List Char :=
  if c = '"' then ['\\', '"']
  else if c = '\\' then ['\\', '\\']
  else if c = '\n' then ['\\', 'n']
  else if c = '\r' then ['\\', 'r']
  else if c = '\t' then ['\\', 't']
  else if c = '\x08' then ['\\', 'b']
  else if c = '\x0c' then ['\\', 'f']
  else if c.toNat < 32 then
    ['\\', 'u', '0', '0', digitChar (c.toNat / 16), digitChar (c.toNat % 16)]
  else [c]

/-- Escaping of a whole string (control characters below 16 render with a
hexadecimal letter only for values below ten in the modelled blocks). -/
def escapeJChars (l : List Char) : List Char :=
  l.foldr (fun c acc => escChar c ++ acc) []

/-- JSON.stringify of a primitive. -/
def stringifyPrim : JPrim → List Char
  | .jnull => ("null").data
  | .jbool true => ("true").data
  | .jbool false => ("false").data
  | .jnum q => ratToDecChars q
  | .jstr s => '"' :: (escapeJChars s ++ ['"'])

/-- JSON.stringify of the members of a flat object. -/
def stringifyMembers : List (List Char × JPrim) → List Char
  | [] => []
  | [kv] => '"' :: (escapeJChars kv.1 ++ '"' :: ':' :: stringifyPrim kv.2)
  | kv :: rest =>
    ('"' :: (escapeJChars kv.1 ++ '"' :: ':' :: stringifyPrim kv.2)) ++
      ',' :: stringifyMembers rest

/-- JSON.stringify of a flat object. -/
def stringifyFlat (kvs : List (List Char × JPrim)) : List Char :=
  '\x7b' :: (stringifyMembers kvs ++ ['\x7d'])

/-! ### pickFromPre (server.js lines 209 to 233) -/

/-- Scan of the brace body: the position of the first closing brace that is
followed by whitespace and the closing pre tag, with the length of that
trailing part; resumes past closing braces that fail the test (the lazy
star). -/
def preBodyScan : ℕ → ℕ → List Char → Option (ℕ × ℕ)
  | 0, _, _ => none
  | _ + 1, _, [] => none
  | f + 1, acc, c :: t =>
    if c = '\x7d' then
      let nws := classCountAux isWs t 0
      match litCI ("</pre>") (t.drop nws) with
      | some n => some (acc, nws + n)
      | none => preBodyScan f (acc + 1) t
    else preBodyScan f (acc + 1) t

/-- Capture matcher of the pre-block regex: the pre tag with attributes,
whitespace, the captured brace block (lazy up to the first closing brace
that is followed by whitespace and the closing pre tag), whitespace and
the closing tag. -/
def preCapM (l : List Char) : Option (ℕ × ℕ × ℕ) :=
  match seqN (seqN (litCI ("<pre")) (classStarN (fun c => c ≠ '>'))) (litCS (">")) l with
  | none => none
  | some nOpen =>
    let nWs := classCountAux isWs (l.drop nOpen) 0
    let off := nOpen + nWs
    match l.drop off with
    | c :: t =>
      if c = '\x7b' then
        match preBodyScan (t.length + 1) 0 t with
        | none => none
        | some (inner, after) => some (off, inner + 2, off + inner + 2 + after)
      else none
    | [] => none

/-- The structured values read from the data block. -/
structure PreData where
  carbo_g : ℚ
  pg_cho_equiv_g : ℚ
  resumo : List Char
deriving DecidableEq

/-- The accepted key aliases for the carbohydrate total. -/
def carboKeys : List (List Char) :=
  [("carbo_g").data, ("carbo_liquido_g").data, ("carbo_liquidos_g").data, ("cho_g").data]

/-- The accepted key aliases for the protein-fat equivalent. -/
def pgKeys : List (List Char) :=
  [("pg_cho_equiv_g").data, ("pg_cho_equiv").data, ("pg_eq_g").data,
   ("pg_eq").data, ("pg_cho_g").data]

/-- First alias present in the object. -/
def firstKeyJ : List (List Char × JPrim) → List (List Char) → Option JPrim
  | _, [] => none
  | kvs, k :: ks =>
    match jlookup kvs k with
    | some v => some v
    | none => firstKeyJ kvs ks

/-- String(v) for a primitive (the null case is handled by the caller). -/
def jprimToChars : JPrim → List Char
  | .jnull => ("null").data
  | .jbool true => ("true").data
  | .jbool false => ("false").data
  | .jnum q => ratToDecChars q
  | .jstr s => s

/-- The local parseNum of pickFromPre: null maps to 0, any other value is
rendered to text and locale-parsed. -/
def parseNumJ : JPrim → ℚ
  | .jnull => 0
  | v => (parseFloatQ (commaToDot (removeDots (jprimToChars v)))).getD 0

/-- String(j.resumo or empty): a falsy resumo renders empty. -/
def resumoText : JPrim → List Char
  | .jnull => []
  | .jbool true => ("true").data
  | .jbool false => []
  | .jnum q => if q = 0 then [] else ratToDecChars q
  | .jstr s => s

/-- pickFromPre: extract the data block, parse it, and read the aliased
fields, every failure yielding zeros and an empty summary. -/
def pickFromPre (html : String) : PreData :=
  match findFirstCap preCapM html.data with
  | none => ⟨0, 0, []⟩
  | some v =>
    match parseFlatObj (capTextOf html.data v) with
    | none => ⟨0, 0, []⟩
    | some kvs =>
      { carbo_g := match firstKeyJ kvs carboKeys with
          | some w => parseNumJ w
          | none => 0
        pg_cho_equiv_g := match firstKeyJ kvs pgKeys with
          | some w => parseNumJ w
          | none => 0
        resumo := match jlookup kvs (("resumo").data) with
          | some w => resumoText w
          | none => [] }

/-! ### stripExtraPgLis (server.js lines 427 to 437) -/

/-- The class bracket-i-accented of the protein words. -/
def liWsB (l : List Char) : Option ℕ :=
  seqN (litCI ("<li>")) (classStarN isWs) l

/-- First strip pattern: the li-b block of the word protein alone with a
colon and a word boundary. -/
def p1M (l : List Char) : Option ℕ :=
  match seqN (seqN liWsB (seqN (litCI ("<b>Prote")) (charN isIorAccI))) (litCI ("nas:")) l with
  | none => none
  | some n0 =>
    match l.drop n0 with
    | c :: _ =>
      if wordCharB c then
        (seqN (lazyUntilN (litCI ("</li>"))) (classStarN isWs) (l.drop n0)).map (n0 + ·)
      else none
    | [] => none

/-- Second strip pattern: the li-b block of the word fat alone with a colon
and a word boundary. -/
def p2M (l : List Char) : Option ℕ :=
  match seqN liWsB (litCI ("<b>Gorduras:")) l with
  | none => none
  | some n0 =>
    match l.drop n0 with
    | c :: _ =>
      if wordCharB c then
        (seqN (lazyUntilN (litCI ("</li>"))) (classStarN isWs) (l.drop n0)).map (n0 + ·)
      else none
    | [] => none

/-- The protein-plus-fat head common to the last two strip patterns. -/
def pgHeadM : List Char → Option ℕ :=
  seqN (seqN (seqN liWsB (seqN (litCI ("<b>Prote")) (charN isIorAccI)))
      (seqN (litCI ("nas")) (classStarN isWs)))
    (seqN (seqN (litCS ("+")) (classStarN isWs)) (seqN (litCI ("Gorduras")) (classStarN isWs)))

/-- Third strip pattern: the equivalent-CHO variant. -/
def p3M : List Char → Option ℕ :=
  seqN (seqN pgHeadM
      (seqN (seqN (litCS ("(")) (litCI ("equivalente"))) (seqN (classStarN isWs) (litCI ("CHO)")))))
    (seqN (seqN (classStarN isWs) (litCS (":")))
      (seqN (lazyUntilN (litCI ("</li>"))) (classStarN isWs)))

/-- Fourth strip pattern: any remaining protein-plus-fat block. -/
def p4M : List Char → Option ℕ :=
  seqN (seqN pgHeadM (litCS (":")))
    (seqN (lazyUntilN (litCI ("</li>"))) (classStarN isWs))

/-- stripExtraPgLis: the four global replaces, in source order. -/
def stripExtraPgLis (l : List Char) : List Char :=
  let s1 := stripAllN p1M (l.length + 1) l
  let s2 := stripAllN p2M (s1.length + 1) s1
  let s3 := stripAllN p3M (s2.length + 1) s2
  stripAllN p4M (s3.length + 1) s3

/-! ### patchRegularDose and patchTotalBolus (server.js lines 441 to 470) -/

/-- The dose token: digits, an optional decimal part, and the unit letter
(the greedy digit run never needs shortening, since a shorter run is
followed by a digit which can be neither the separator nor the unit). -/
def digitUM (l : List Char) : Option ℕ :=
  let d1 := classCountAux isDigitC l 0
  if d1 = 0 then none
  else
    let l1 := l.drop d1
    let opt : ℕ :=
      match l1 with
      | c :: t =>
        if c = '.' || c = ',' then
          let d2 := classCountAux isDigitC t 0
          if d2 = 0 then 0 else 1 + d2
        else 0
      | [] => 0
    match l1.drop opt with
    | c :: _ => if foldC c = 'u' then some (d1 + opt + 1) else none
    | [] => none

/-- First dose-line pattern: the regular-insulin line of the insulin block;
the capture is the prefix up to the dose token. -/
def r1M (l : List Char) : Option (ℕ × ℕ × ℕ) :=
  match seqN (seqN (litCI ("<li><b>Insulina R (prote")) (charN isIorAccI))
      (litCI ("na/gordura):")) l with
  | none => none
  | some np =>
    match lazyClassUntilAux (fun c => c ≠ '<') digitUM 0 (l.drop np) with
    | none => none
    | some (lz, du) => some (0, np + lz, np + lz + du)

/-- Second dose-line pattern: the regular-insulin line of the summary
block. -/
def r2M (l : List Char) : Option (ℕ × ℕ × ℕ) :=
  match seqN (seqN (seqN (litCI ("<li><b>Insulina R")) (optN (litCS (":"))))
      (seqN (classStarN isWs) (litCI ("</b>")))) (classStarN isWs) l with
  | none => none
  | some np => (digitUM (l.drop np)).map (fun du => (0, np, np + du))

/-- Dash class of the two-to-three-hours pattern. -/
def isDashC (c : Char) : Bool := c = '–' || c = '-'

/-- Tail of the third dose-line pattern after the lazy part: the
two-to-three-hours wording, the closing bold tag and the dose token. -/
def r3TailM (l : List Char) : Option (ℕ × ℕ) :=
  match seqN (seqN (seqN (litCS ("2")) (classStarN isWs)) (seqN (charN isDashC) (classStarN isWs)))
      (seqN (seqN (litCS ("3")) (classStarN isWs))
        (seqN (seqN (litCI ("horas")) (optN (litCS (":"))))
          (seqN (classStarN isWs) (seqN (litCI ("</b>")) (classStarN isWs))))) l with
  | none => none
  | some nt => (digitUM (l.drop nt)).map (fun du => (nt, du))

/-- Lazy class scan for a stop matcher with two components. -/
def lazyClassUntil2Aux (cls : Char → Bool) (stop : List Char → Option (ℕ × ℕ)) :
    ℕ → List Char → Option (ℕ × ℕ × ℕ)
  | acc, [] => (stop []).map (fun v => (acc, v.1, v.2))
  | acc, c :: t =>
    match stop (c :: t) with
    | some v => some (acc, v.1, v.2)
    | none => if cls c then lazyClassUntil2Aux cls stop (acc + 1) t else none

/-- Third dose-line pattern: the split-strategy line announced in hours. -/
def r3M (l : List Char) : Option (ℕ × ℕ × ℕ) :=
  match litCI ("<li><b>Insulina ") l with
  | none => none
  | some np =>
    match lazyClassUntil2Aux (fun c => c ≠ '<') r3TailM 0 (l.drop np) with
    | none => none
    | some (lz, tl, du) => some (0, np + lz + tl, np + lz + tl + du)

/-- Replacement of the first capture match, the replacement being built
from the captured prefix (the captures of the dose patterns start at the
match, so the prefix is the capture text). -/
def replaceFirstCap (m : List Char → Option (ℕ × ℕ × ℕ))
    (buildRepl : List Char → List Char) (l : List Char) : List Char :=
  match findFirstCap m l with
  | none => l
  | some v => l.take v.start ++ buildRepl (capTextOf l v) ++ l.drop (v.start + v.totLen)

/-- patchRegularDose: the three dose-line replaces in source order, each
writing the rounded regular dose. -/
def patchRegularDose (html : List Char) (regU : ℤ) : List Char :=
  let rep := fun cap : List Char => cap ++ intDigits regU ++ ("U").data
  replaceFirstCap r3M rep (replaceFirstCap r2M rep (replaceFirstCap r1M rep html))

/-- patchTotalBolus: the total line is replaced wholesale (the rapid-name
argument is unused, as in the source). -/
def patchTotalBolus (html : List Char) (_rapidName : String) (rapidU regU : ℤ) :
    List Char :=
  let li := ("<li><b>Total bolus:</b> ").data ++ intDigits rapidU ++ ("U + ").data ++
    intDigits regU ++ ("U = <b>").data ++ intDigits (rapidU + regU) ++ ("U</b></li>").data
  replaceFirstN (seqN (litCI ("<li><b>Total bolus:")) (lazyUntilN (litCI ("</li>"))))
    (fun _ => li) html

/-! ### patchPgTotals and enforcePgRule (server.js lines 476 to 556) -/

/-- Replace the first dot by a comma (the display convention). -/
def dotToComma : List Char → List Char
  | [] => []
  | c :: t => if c = '.' then ',' :: t else c :: dotToComma t

/-- String(n) with the first dot turned into a comma. -/
def jsNumComma (q : ℚ) : List Char := dotToComma (ratToDecChars q)

/-- toFixed(1): round half away from zero is not needed here; the source
values are nonnegative except for locale-parsed negatives, and toFixed
picks the larger candidate on ties, which floor of ten q plus one half
realises. -/
def toFixed1Chars (q : ℚ) : List Char :=
  let n : ℤ := ⌊q * 10 + 1 / 2⌋
  (if n < 0 then ['-'] else []) ++ natDigits (n.natAbs / 10) ++ '.' :: [digitChar (n.natAbs % 10)]

/-- joinParts: the parts rendered with comma decimals and joined by
plus signs. -/
def joinPartsChars : List ℚ → List Char
  | [] => []
  | [v] => jsNumComma v
  | v :: rest => jsNumComma v ++ ' ' :: '+' :: ' ' :: joinPartsChars rest

/-- The detailed sum text: the joined parts and the total, or the total
alone when no parts were recorded. -/
def sumText (parts : List ℚ) (tot : ℚ) : List Char :=
  if parts.isEmpty then jsNumComma tot ++ ['g']
  else joinPartsChars parts ++ (" = ").data ++ jsNumComma tot ++ ['g']

/-- The single canonical breakdown block built by patchPgTotals. -/
def blocoChars (prot_g gord_g kcalP kcalG kcalSum choEq : ℚ)
    (partsP partsG : List ℚ) (protPct : ℚ) : List Char :=
  ("<li>").data ++
  ("<b>Proteínas + Gorduras:</b><br>").data ++
  ("Proteína: ").data ++ sumText partsP prot_g ++ (" ×4 = ").data ++
    dotToComma (intDigits (r0 kcalP)) ++ (" kcal × ").data ++ ratToDecChars protPct ++
    ("% = ").data ++ dotToComma (toFixed1Chars (kcalP * (protPct / 100))) ++ (" kcal<br>").data ++
  ("Gordura: ").data ++ sumText partsG gord_g ++ (" ×9 = ").data ++
    dotToComma (intDigits (r0 kcalG)) ++ (" kcal × 10% = ").data ++
    dotToComma (toFixed1Chars (kcalG * (0.10 : ℚ))) ++ (" kcal<br>").data ++
  ("Carboidratos (p+g) = ").data ++ dotToComma (toFixed1Chars (kcalP * (protPct / 100))) ++
    (" + ").data ++ dotToComma (toFixed1Chars (kcalG * (0.10 : ℚ))) ++ (" = ").data ++
    dotToComma (toFixed1Chars kcalSum) ++ (" kcal ÷10 = <b>").data ++
    dotToComma (toFixed1Chars choEq) ++ (" g CHO</b>").data ++
  ("</li>").data

/-- First insertion anchor: the carbohydrate li with a word boundary after
the colon (in the mandated format a tag follows the colon, so this anchor
fails and the header anchor is used). -/
def carbLiM (l : List Char) : Option ℕ :=
  match seqN liWsB (litCI ("<b>Carboidratos:")) l with
  | none => none
  | some n0 =>
    match l.drop n0 with
    | c :: _ =>
      if wordCharB c then (lazyUntilN (litCI ("</li>")) (l.drop n0)).map (n0 + ·)
      else none
    | [] => none

/-- Second insertion anchor: the totals header followed by the list
opening. -/
def totaisHdrM (l : List Char) : Option ℕ :=
  match litCI ("<h3>") l with
  | none => none
  | some n0 =>
    match lazyClassUntilAux (fun c => c ≠ '<') (litCI ("Totais")) 0 (l.drop n0) with
    | none => none
    | some (lz, nt) =>
      let n1 := n0 + lz + nt
      let n2 := classCountAux (fun c => c ≠ '<') (l.drop n1) 0
      match seqN (seqN (litCI ("</h3>")) (classStarN isWs))
          (seqN (seqN (litCI ("<ul")) (classStarN (fun c => c ≠ '>'))) (litCS (">")))
          (l.drop (n1 + n2)) with
      | none => none
      | some n3 => some (n1 + n2 + n3)

/-- patchPgTotals: strip every pre-existing breakdown, then insert the
single canonical block after the carbohydrate li, or after the totals
header as fallback, or nowhere. -/
def patchPgTotals (html : List Char) (prot_g gord_g kcalP kcalG kcalSum choEq : ℚ)
    (partsP partsG : List ℚ) (protPct : ℚ) : List Char :=
  let out := stripExtraPgLis html
  let bloco := blocoChars prot_g gord_g kcalP kcalG kcalSum choEq partsP partsG protPct
  match findFirstN carbLiM out with
  | some (i, n) => out.take (i + n) ++ '\n' :: (bloco ++ out.drop (i + n))
  | none =>
    match findFirstN totaisHdrM out with
    | some (i, n) => out.take (i + n) ++ '\n' :: (bloco ++ out.drop (i + n))
    | none => out

/-- Number(pg.toFixed(1)): the equivalent rounded to one decimal. -/
def round1 (q : ℚ) : ℚ := qOfInt ⌊q * 10 + 1 / 2⌋ / 10

/-- The data-block rewrite of enforcePgRule: parse the first pre block,
set the equivalent field to its one-decimal rounding, and re-serialise;
any parse failure leaves the markup unchanged. -/
def preRW (html : List Char) (pg : ℚ) : List Char :=
  match findFirstCap preCapM html with
  | none => html
  | some v =>
    match parseFlatObj (capTextOf html v) with
    | none => html
    | some kvs =>
      html.take v.start ++ ("<pre>").data ++
        stringifyFlat (jobjSetKey kvs (("pg_cho_equiv_g").data) (.jnum (round1 pg))) ++
        ("</pre>").data ++ html.drop (v.start + v.totLen)

/-- Result record of enforcePgRule. -/
structure EnforceResult where
  html : List Char
  pg_cho_equiv_g : ℚ
  doseRegular : ℚ
  protPct : ℚ

/-- The enforced equivalent: table totals of the stripped markup under the
canonical rule with the configured protein percentage. -/
def enforcePgValue (html : List Char) (cfg : Cfg) : ℚ :=
  let t := parseProtGordFromTable (stripExtraPgLis html)
  (t.prot_g * 4 * (enforceProtPct cfg / 100) + t.gord_g * 9 * (0.10 : ℚ)) / 10

/-- The markup stage of enforcePgRule before the data-block rewrite: strip,
recover the table totals, insert the corrected breakdown block. -/
def enforceStage1 (html : List Char) (cfg : Cfg) : List Char :=
  let protPct := enforceProtPct cfg
  let out := stripExtraPgLis html
  let t := parseProtGordFromTable out
  let kcalP := t.prot_g * 4
  let kcalG := t.gord_g * 9
  let kProt := kcalP * (protPct / 100)
  let kGord := kcalG * (0.10 : ℚ)
  patchPgTotals out t.prot_g t.gord_g kcalP kcalG (kProt + kGord) ((kProt + kGord) / 10)
    t.partsP t.partsG protPct

/-- enforcePgRule: strip the model blocks, recover the table totals, apply
the canonical rule with the configured protein percentage, insert the
corrected block and patch the data block. -/
def enforcePgRule (html : List Char) (cfg : Cfg) : EnforceResult :=
  { html := preRW (enforceStage1 html cfg) (enforcePgValue html cfg)
    pg_cho_equiv_g := enforcePgValue html cfg
    doseRegular := if icrOf cfg > 0 then enforcePgValue html cfg / icrOf cfg else 0
    protPct := enforceProtPct cfg }

/-! ### The chat handler pipeline (server.js lines 562 to 667) -/

/-- The configuration after the strategy merge of the handler body. -/
def chatCfgMerged (cfgRaw : Cfg) (bodyStrategy : Option String) : Cfg :=
  { cfgRaw with pg_strategy := some (jsOrStr bodyStrategy (jsOrStr cfgRaw.pg_strategy ("regular_now"))) }

/-- The rapid-insulin display name. -/
def rapidNameOf (cfg : Cfg) : String := jsOrStr cfg.insulina_rapida ("Fiasp")

/-- Everything the text handler computes, persists and returns. -/
structure ChatResult where
  carbo_g : ℚ
  pg_cho_equiv_g : ℚ
  detalhes_html : List Char
  resumo : List Char
  doses : ChatDoses
  payload_pg : ℚ
  payload_dose_rapida : ℤ
  payload_dose_regular : ℤ

/-- The text-analysis pipeline: model reply parsing, the fallback chain for
the equivalent, the rule enforcement, the dose block and the narrative
patches; without a model client the placeholder narrative is used with
zero macros, the doses still being computed. -/
def chatPipeline (hasOpenai : Bool) (raw : String) (cfgRaw : Cfg)
    (bodyStrategy : Option String) (message : String) (glicemia : ℚ) : ChatResult :=
  let cfg := chatCfgMerged cfgRaw bodyStrategy
  let base :=
    if hasOpenai then
      let detalhes0 := stripFences raw
      let parsed := pickFromPre raw
      let resumo := if parsed.resumo ≠ [] then parsed.resumo else trimJS message.data
      let percent := chatPercent cfg
      let pg1 :=
        if ¬ parsed.pg_cho_equiv_g > 0 then (computePgFromHtml ⟨detalhes0⟩ percent).choEq
        else parsed.pg_cho_equiv_g
      let enforced := enforcePgRule detalhes0 cfg
      let pg2 := if ¬ pg1 > 0 then enforced.pg_cho_equiv_g else pg1
      (parsed.carbo_g, pg2, enforced.html, resumo)
    else (0, 0, ("<em>Análise automática indisponível.</em>").data, trimJS message.data)
  let d := chatDoses cfg base.1 base.2.1 glicemia
  let detalhes := patchTotalBolus (patchRegularDose base.2.2.1 d.regularU)
    (rapidNameOf cfg) d.rapidTotalU d.regularU
  { carbo_g := base.1
    pg_cho_equiv_g := base.2.1
    detalhes_html := detalhes
    resumo := base.2.2.2
    doses := d
    payload_pg := base.2.1
    payload_dose_rapida := d.rapidTotalU
    payload_dose_regular := d.regularU }

/-- The catch handler of the text route: a timeout message yields status
504, anything else 500, in both cases an error response (ok false). -/
def chatCatch (msg : String) : ℕ × Bool :=
  (if jsStartsWith msg ("Timeout") then 504 else 500, false)

/-- The degraded body returned by the catch handler of the image route:
a successful response with zero totals and the placeholder narrative, and
no dose fields at all. -/
structure ImageDegraded where
  ok : Bool
  carbo_g : ℚ
  pg_cho_equiv_g : ℚ
  detalhes_html : String

/-- The literal degraded body of the image catch handler. -/
def chatImageCatchBody : ImageDegraded :=
  { ok := true
    carbo_g := 0
    pg_cho_equiv_g := 0
    detalhes_html := "<em>Não foi possível analisar a imagem agora. Tente novamente ou descreva a refeição em texto.</em>" }

/-- The narrative reconciliation of one analysis request: rule enforcement
followed by the dose-line and total-line patches, as the handlers apply
them. -/
def reconcileNarrative (html : List Char) (cfg : Cfg) (rapidU regU : ℤ) : List Char :=
  patchTotalBolus (patchRegularDose (enforcePgRule html cfg).html regU)
    (rapidNameOf cfg) rapidU regU

/-- Observer: the raw protein-fat equivalent carried by the first data
block of a narrative, when the block parses and the field is a number. -/
def preBlockPgValue (html : List Char) : Option ℚ :=
  match findFirstCap preCapM html with
  | none => none
  | some v =>
    match parseFlatObj (capTextOf html v) with
    | none => none
    | some kvs =>
      match jlookup kvs (("pg_cho_equiv_g").data) with
      | some (.jnum q) => some q
      | _ => none

/-- The narrative of the pre-block mismatch counterexample: a table giving
protein 20 g and fat 10 g, and a model data block reporting the
equivalent 5. -/
def preMismatchHtml : String :=
  "<div><table><tbody><tr><td>Bife</td><td>100 g</td><td>0 g</td><td>~200 kcal</td><td>20 g</td><td>10 g</td></tr></tbody></table><pre>\x7b\"pg_cho_equiv_g\": 5, \"carbo_g\": 30\x7d</pre></div>"

/-- The configuration of the mismatch counterexample (protein percentage
50). -/
def preMismatchCfg : Cfg := { pct_cal_pf := some 50 }

/-- The narrative of the rounding-mismatch input: a table giving protein
2.5 g and fat 0 g, and a data block reporting the equivalent 0 (so neither
the model-reported equivalent nor the fallback is positive). -/
def c3RoundHtml : String :=
  "<div><table><tbody><tr><td>Bife</td><td>100 g</td><td>0 g</td><td>~200 kcal</td><td>2,5 g</td><td>0 g</td></tr></tbody></table><pre>\x7b\"pg_cho_equiv_g\": 0, \"carbo_g\": 30\x7d</pre></div>"

/-- The configuration of the rounding-mismatch input (protein percentage
33, under which the enforced equivalent 0.33 is not one-decimal). -/
def c3RoundCfg : Cfg := { pct_cal_pf := some 33 }

/-- The narrative of the idempotence counterexample: the totals header,
its list, and one unrelated li preceded by a space. -/
def idemHtml : List Char := ("<h3>📊 Totais</h3><ul> <li>x</li></ul>").data

/-! ### Occurrence counting for the block-uniqueness claim -/

/-- The distinctive text of the canonical protein-fat breakdown block. -/
def pgMarker : List Char := ("Proteínas + Gorduras:").data

/-- Number of positions at which the pattern occurs (overlapping
occurrences counted). -/
def countOccur (pat : List Char) : List Char → ℕ
  | [] => if startsWithL pat [] then 1 else 0
  | c :: t => (if startsWithL pat (c :: t) then 1 else 0) + countOccur pat t

/-! ### Helper lemmas about digits and rendering -/

theorem spanC_all {p : Char → Bool} :
    ∀ l : List Char, (∀ c ∈ l, p c = true) → spanC p l = (l, []) := by
  intro l h
  induction l with
  | nil => rfl
  | cons c t ih =>
    have hc : p c = true := h c (by simp)
    simp [spanC, hc, ih (fun d hd => h d (by simp [hd]))]

theorem digitChar_toNat {k : ℕ} (h : k < 10) : (digitChar k).toNat = 48 + k := by
  interval_cases k <;> rfl

theorem isDigitC_digitChar {k : ℕ} (h : k < 10) : isDigitC (digitChar k) = true := by
  interval_cases k <;> rfl

theorem isDigitC_toNat {c : Char} (h : isDigitC c = true) :
    48 ≤ c.toNat ∧ c.toNat ≤ 57 := by
  simpa [isDigitC] using h

theorem isDigitC_ne {c : Char} (h : isDigitC c = true) (d : Char)
    (hd : d.toNat < 48 ∨ 57 < d.toNat) : c ≠ d := by
  intro he
  have := isDigitC_toNat h
  subst he
  omega

theorem isWs_of_digit {c : Char} (h : isDigitC c = true) : isWs c = false := by
  have h1 := isDigitC_ne h ' ' (by decide)
  have h2 := isDigitC_ne h '\t' (by decide)
  have h3 := isDigitC_ne h '\n' (by decide)
  have h4 := isDigitC_ne h '\r' (by decide)
  have h5 := isDigitC_ne h '\x0b' (by decide)
  have h6 := isDigitC_ne h '\x0c' (by decide)
  simp [isWs, h1, h2, h3, h4, h5, h6]

theorem qOfNat_cast (n : ℕ) : qOfNat n = (n : ℚ) := by
  apply Rat.ext
  · simp [qOfNat]
  · simp [qOfNat]

/-- Two rationals differ when their numerators differ (used to keep
concrete evaluations at the integer level, where kernel reduction is
shallow). -/
theorem rat_ne_of_num {a b : ℚ} (h : ¬ a.num = b.num) : a ≠ b :=
  fun he => h (he ▸ rfl)

theorem digitsToNat_concat (l : List Char) (c : Char) :
    digitsToNat (l ++ [c]) = 10 * digitsToNat l + (c.toNat - 48) := by
  simp [digitsToNat, List.foldl_append]

theorem natDigitsAux_val : ∀ f n, n ≤ f → digitsToNat (natDigitsAux f n) = n := by
  intro f
  induction f with
  | zero =>
    intro n hn
    have : n = 0 := by omega
    subst this
    rfl
  | succ f ih =>
    intro n hn
    match n with
    | 0 => rfl
    | m + 1 =>
      have h1 : (m + 1) / 10 ≤ f := by
        have := Nat.div_lt_self (show 0 < m + 1 by omega) (show 1 < 10 by omega)
        omega
      have h2 : (m + 1) % 10 < 10 := Nat.mod_lt _ (by omega)
      calc digitsToNat (natDigitsAux (f + 1) (m + 1))
          = digitsToNat (natDigitsAux f ((m + 1) / 10) ++ [digitChar ((m + 1) % 10)]) := rfl
        _ = 10 * ((m + 1) / 10) + ((digitChar ((m + 1) % 10)).toNat - 48) := by
              rw [digitsToNat_concat, ih _ h1]
        _ = m + 1 := by rw [digitChar_toNat h2]; omega

theorem natDigits_val (n : ℕ) : digitsToNat (natDigits n) = n := by
  by_cases h : n = 0
  · subst h; rfl
  · rw [natDigits, if_neg h]
    exact natDigitsAux_val _ _ (by omega)

theorem natDigitsAux_digit : ∀ f n, ∀ c ∈ natDigitsAux f n, isDigitC c = true := by
  intro f
  induction f with
  | zero => intro n c h; simp [natDigitsAux] at h
  | succ f ih =>
    intro n c h
    rcases n with _ | m
    · simp [natDigitsAux] at h
    · have hrw : natDigitsAux (f + 1) (m + 1) =
          natDigitsAux f ((m + 1) / 10) ++ [digitChar ((m + 1) % 10)] := rfl
      rw [hrw] at h
      rcases List.mem_append.mp h with h | h
      · exact ih _ _ h
      · simp at h
        subst h
        exact isDigitC_digitChar (Nat.mod_lt _ (by omega))

theorem natDigits_digit (n : ℕ) : ∀ c ∈ natDigits n, isDigitC c = true := by
  intro c hc
  by_cases h : n = 0
  · subst h
    simp [natDigits] at hc
    subst hc
    rfl
  · rw [natDigits, if_neg h] at hc
    exact natDigitsAux_digit _ _ _ hc

theorem natDigits_ne_nil (n : ℕ) : natDigits n ≠ [] := by
  by_cases h : n = 0
  · subst h; simp [natDigits]
  · rw [natDigits, if_neg h]
    rcases n with _ | m
    · simp at h
    · have hrw : natDigitsAux (m + 1 + 1) (m + 1) =
          natDigitsAux (m + 1) ((m + 1) / 10) ++ [digitChar ((m + 1) % 10)] := rfl
      rw [hrw]
      simp

theorem removeDots_of_digits {l : List Char} (h : ∀ c ∈ l, isDigitC c = true) :
    removeDots l = l := by
  rw [removeDots, List.filter_eq_self]
  intro c hc
  simpa using isDigitC_ne (h c hc) '.' (by decide)

theorem commaToDot_of_no_comma : ∀ l : List Char, (∀ c ∈ l, c ≠ ',') → commaToDot l = l := by
  intro l h
  induction l with
  | nil => rfl
  | cons c t ih =>
    have hc : c ≠ ',' := h c (by simp)
    simp [commaToDot, hc, ih (fun d hd => h d (by simp [hd]))]

theorem skipWs_not_ws {c : Char} {t : List Char} (h : isWs c = false) :
    skipWs (c :: t) = c :: t := by
  simp [skipWs, h]

theorem signSplit_other {c : Char} {t : List Char} (h1 : c ≠ '-') (h2 : c ≠ '+') :
    signSplit (c :: t) = (1, c :: t) := by
  simp [signSplit, h1, h2]

theorem commaToDot_cons_other {c : Char} {t : List Char} (h : c ≠ ',') :
    commaToDot (c :: t) = c :: commaToDot t := by
  simp [commaToDot, h]

theorem removeDots_cons_other {c : Char} {t : List Char} (h : c ≠ '.') :
    removeDots (c :: t) = c :: removeDots t := by
  simp [removeDots, h]

/-- parseFloat of a pure digit string is its value. -/
theorem parseFloatQ_digits {l : List Char} (hd : ∀ c ∈ l, isDigitC c = true)
    (hne : l ≠ []) : parseFloatQ l = some (digitsToNat l : ℚ) := by
  obtain ⟨c, t, rfl⟩ := List.exists_cons_of_ne_nil hne
  have hc : isDigitC c = true := hd c (by simp)
  rw [parseFloatQ, skipWs_not_ws (isWs_of_digit hc),
    signSplit_other (isDigitC_ne hc '-' (by decide)) (isDigitC_ne hc '+' (by decide))]
  simp only [spanC_all _ hd]
  simp [fracPart, expPart, digitsToNat, qOfNat_cast]

/-- parseFloat of a minus sign followed by a pure digit string. -/
theorem parseFloatQ_neg_digits {l : List Char} (hd : ∀ c ∈ l, isDigitC c = true)
    (hne : l ≠ []) : parseFloatQ ('-' :: l) = some (-(digitsToNat l : ℚ)) := by
  rw [parseFloatQ, skipWs_not_ws (show isWs '-' = false by decide)]
  have hsgn : signSplit ('-' :: l) = (-1, l) := by simp [signSplit]
  rw [hsgn]
  simp only [spanC_all _ hd]
  have hne2 : l.isEmpty = false := by
    simp [List.isEmpty_iff, hne]
  simp [fracPart, expPart, hne2, digitsToNat, qOfNat_cast]

/-- The rendering of an integer is its sign and its digits. -/
theorem ratToDecChars_int (z : ℤ) :
    ratToDecChars (z : ℚ) =
      (if z < 0 then ['-'] else []) ++ natDigits z.natAbs := by
  have habs : |(z : ℚ)| = ((|z| : ℤ) : ℚ) := by push_cast; rfl
  have hfloor : ⌊|(z : ℚ)|⌋ = |z| := by rw [habs, Int.floor_intCast]
  have hfp : |(z : ℚ)| - ((⌊|(z : ℚ)|⌋ : ℤ) : ℚ) = 0 := by
    rw [hfloor, ← habs]; ring
  have hip : (⌊|(z : ℚ)|⌋).toNat = z.natAbs := by
    rw [hfloor, Int.abs_eq_natAbs, Int.toNat_natCast]
  rw [ratToDecChars]
  simp only [hfp, hip]
  have hneg : ((z : ℚ) < 0) ↔ (z < 0) := by simp
  by_cases hz : z < 0
  · rw [if_pos (hneg.mpr hz), if_pos hz]
    simp
  · rw [if_neg (fun hlt => hz (hneg.mp hlt)), if_neg hz]
    simp

/-- C8 amended direction: the parser is the identity on integral numeric
input (the rendering of an integer contains no dot, so the
thousands-separator removal does not change it). -/
theorem num_int (z : ℤ) : num (.jnum (z : ℚ)) = (z : ℚ) := by
  have hdig := natDigits_digit z.natAbs
  have hnodot : removeDots (natDigits z.natAbs) = natDigits z.natAbs :=
    removeDots_of_digits hdig
  have hnocomma : commaToDot (natDigits z.natAbs) = natDigits z.natAbs :=
    commaToDot_of_no_comma _ (fun c hc => isDigitC_ne (hdig c hc) ',' (by decide))
  rw [num, jsValToChars, ratToDecChars_int]
  by_cases hz : z < 0
  · rw [if_pos hz]
    have hl : (['-'] ++ natDigits z.natAbs) = '-' :: natDigits z.natAbs := rfl
    rw [hl, removeDots_cons_other (by decide), hnodot,
      commaToDot_cons_other (by decide), hnocomma,
      parseFloatQ_neg_digits hdig (natDigits_ne_nil _), natDigits_val]
    simp only [Option.getD_some]
    rw [Int.cast_natAbs, abs_of_neg hz]
    push_cast
    ring
  · rw [if_neg hz]
    have hl : (([] : List Char) ++ natDigits z.natAbs) = natDigits z.natAbs := rfl
    rw [hl, hnodot, hnocomma,
      parseFloatQ_digits hdig (natDigits_ne_nil _), natDigits_val]
    simp only [Option.getD_some]
    rw [Int.cast_natAbs, abs_of_nonneg (not_lt.mp hz)]

/-! ### The table scan as a plain sum -/

theorem pgAddProt_prot (st : PGTable) (p : ℚ) : (pgAddProt st p).prot_g = st.prot_g + p := by
  rw [pgAddProt]
  by_cases h : p = 0
  · simp [h]
  · simp [h]

theorem pgAddProt_gord (st : PGTable) (p : ℚ) : (pgAddProt st p).gord_g = st.gord_g := by
  rw [pgAddProt]
  by_cases h : p = 0 <;> simp [h]

theorem pgAddGord_gord (st : PGTable) (g : ℚ) : (pgAddGord st g).gord_g = st.gord_g + g := by
  rw [pgAddGord]
  by_cases h : g = 0
  · simp [h]
  · simp [h]

theorem pgAddGord_prot (st : PGTable) (g : ℚ) : (pgAddGord st g).prot_g = st.prot_g := by
  rw [pgAddGord]
  by_cases h : g = 0 <;> simp [h]

theorem foldl_pgRowStep_prot (rows : List (List Char)) :
    ∀ st : PGTable,
      (rows.foldl pgRowStep st).prot_g =
        st.prot_g + ((rows.filter (fun r => 6 ≤ (tableRowCells r).length)).map
          (fun r => cellValue (tableRowCells r) 4)).sum := by
  induction rows with
  | nil => intro st; simp
  | cons r rs ih =>
    intro st
    rw [List.foldl_cons, ih]
    by_cases h : 6 ≤ (tableRowCells r).length
    · rw [List.filter_cons_of_pos (by simpa using h), List.map_cons, List.sum_cons,
        pgRowStep, if_pos h, pgAddGord_prot, pgAddProt_prot]
      ring
    · rw [List.filter_cons_of_neg (by simpa using h), pgRowStep, if_neg h]

theorem foldl_pgRowStep_gord (rows : List (List Char)) :
    ∀ st : PGTable,
      (rows.foldl pgRowStep st).gord_g =
        st.gord_g + ((rows.filter (fun r => 6 ≤ (tableRowCells r).length)).map
          (fun r => cellValue (tableRowCells r) 5)).sum := by
  induction rows with
  | nil => intro st; simp
  | cons r rs ih =>
    intro st
    rw [List.foldl_cons, ih]
    by_cases h : 6 ≤ (tableRowCells r).length
    · rw [List.filter_cons_of_pos (by simpa using h), List.map_cons, List.sum_cons,
        pgRowStep, if_pos h, pgAddGord_gord, pgAddProt_gord]
      ring
    · rw [List.filter_cons_of_neg (by simpa using h), pgRowStep, if_neg h]

theorem parseProtGordFromTable_eq_fold (html : List Char) :
    parseProtGordFromTable html = (tbodyRowsOf html).foldl pgRowStep ⟨0, 0, [], []⟩ := by
  cases h : tbodyBlockOf html with
  | none => simp [parseProtGordFromTable, tbodyRowsOf, h]
  | some v => simp [parseProtGordFromTable, tbodyRowsOf, h]

/-! ### Claim theorems for the numeric parser and the table scan -/

/-- C7: when the fallback table scan runs, it returns protein and fat totals
equal to the sums, over every row of the table body having at least six
cells, of the locale-parsed values of the fifth cell (protein) and the
sixth cell (fat); the truthiness guards of the loop skip exactly the zero
contributions, so the guarded accumulation equals the plain sums. -/
theorem C7_table_scan_equals_row_sums (html : List Char) :
    (parseProtGordFromTable html).prot_g = protSumSpec html ∧
    (parseProtGordFromTable html).gord_g = gordSumSpec html := by
  rw [parseProtGordFromTable_eq_fold, protSumSpec, gordSumSpec,
    foldl_pgRowStep_prot, foldl_pgRowStep_gord]
  constructor <;> simp

/-- The truthiness chain never yields zero when its default is nonzero. -/
theorem jsOrField_ne_zero {w : ℚ} (v : Option ℚ) (hw : w ≠ 0) : jsOrField v w ≠ 0 := by
  rcases v with _ | q
  · simp [jsOrField, hw]
  · by_cases hq : q = 0
    · simp [jsOrField, hq, hw]
    · simp [jsOrField, hq]

/-- A missing or zero field falls through to the default. -/
theorem jsOrField_falsy {w : ℚ} : ∀ v : Option ℚ, v = none ∨ v = some 0 → jsOrField v w = w := by
  intro v h
  rcases h with h | h <;> subst h <;> simp [jsOrField]

/-- C2: the failing input of the fallback-formula claim: protein 20 g and
fat 10 g recovered from total sentences with protein percentage 50 give
12.25 g through computePgFromHtml, while the canonical rule of the system
prompt and of enforcePgRule gives 4.9 g: the fallback implements the
historical divide-by-four variant, contradicting the in-file rule that
forbids it. -/
theorem C2_fallback_formula_divergence :
    (computePgFromHtml (pgC2Html) (1 / 2)).protG = 20 ∧
    (computePgFromHtml (pgC2Html) (1 / 2)).gordG = 10 ∧
    (computePgFromHtml (pgC2Html) (1 / 2)).choEq = 49 / 4 ∧
    canonicalPgEquiv 20 10 50 = 49 / 10 ∧
    (49 / 4 : ℚ) ≠ 49 / 10 := by
  refine ⟨Rat.ext (by with_unfolding_all decide) (by with_unfolding_all decide),
    Rat.ext (by with_unfolding_all decide) (by with_unfolding_all decide),
    Rat.ext (by with_unfolding_all decide) (by with_unfolding_all decide),
    by rw [canonicalPgEquiv]; norm_num, by norm_num⟩

/-- C1 counterexample: with the split-to-rapid-later strategy the computed
and persisted regular dose is 0, not the rounding of the equivalent over
the ratio (here round of 10 over 10, which is 1). -/
theorem C1_counterexample_deferred_dropped :
    (chatDoses cfgSplit 0 10 100).regularU ≠ r0 (10 / icrOf cfgSplit) := by
  with_unfolding_all decide

/-- C1 amended: deferred-or-regular units equal the rounding of the
equivalent over the ratio only under the regular-now strategy; under any
other strategy the immediate protein-fat dose is 0 and the persisted
dose-regular field is the rounding of 0, so the deferred dose is dropped
to 0 rather than reported. -/
theorem C1_amended_deferred_dose (cfg : Cfg) (carbo pg glic : ℚ) :
    (chatDoses cfg carbo pg glic).regularU =
      (if stratOf cfg = "regular_now" then r0 (pg / icrOf cfg) else 0) := by
  rw [chatDoses]
  by_cases h : stratOf cfg = "regular_now"
  · simp [h]
  · simp [h, r0]
    norm_num

/-- C5 counterexample: a negative ratio is truthy, so it is not replaced by
the default (the claim requires 10), and enforcePgRule defaults a missing
protein percentage to 0, not to the documented 100. -/
theorem C5_counterexample_negative_kept :
    icrOf { icr := some (-5) } = -5 ∧ enforceProtPct {} = 0 := by
  constructor
  · exact Rat.ext (by with_unfolding_all decide) (by with_unfolding_all decide)
  · exact Rat.ext (by with_unfolding_all decide) (by with_unfolding_all decide)

/-- C5 amended: missing or zero ratio, sensitivity and target are replaced
by the documented defaults through truthiness, and the resulting divisors
are never zero, so no division by zero occurs; negative values however
pass through unchanged, and the protein percentage of enforcePgRule
defaults to 0 rather than 100. -/
theorem C5_amended_defaulting :
    (∀ cfg : Cfg, icrOf cfg ≠ 0 ∧ isfOf cfg ≠ 0) ∧
    (∀ cfg : Cfg, (cfg.icr = none ∨ cfg.icr = some 0) →
      (cfg.insulina_cho = none ∨ cfg.insulina_cho = some 0) → icrOf cfg = 10) ∧
    (∀ cfg : Cfg, (cfg.isf = none ∨ cfg.isf = some 0) →
      (cfg.glicose_insulina = none ∨ cfg.glicose_insulina = some 0) →
      isfOf cfg = 50) ∧
    (∀ cfg : Cfg, (cfg.target = none ∨ cfg.target = some 0) → targetOf cfg = 100) ∧
    (∀ cfg : Cfg, cfg.pct_cal_pf = none → enforceProtPct cfg = 0) := by
  refine ⟨fun cfg => ⟨?_, ?_⟩, fun cfg h1 h2 => ?_, fun cfg h1 h2 => ?_,
    fun cfg h1 => ?_, fun cfg h1 => ?_⟩
  · exact jsOrField_ne_zero _ (jsOrField_ne_zero _ (by norm_num))
  · exact jsOrField_ne_zero _ (jsOrField_ne_zero _ (by norm_num))
  · rw [icrOf, jsOrField_falsy _ h1, jsOrField_falsy _ h2]
  · rw [isfOf, jsOrField_falsy _ h1, jsOrField_falsy _ h2]
  · rw [targetOf, jsOrField_falsy _ h1]
  · simp [enforceProtPct, h1, clamp0100]

/-- Witness for C5: the defaults at the empty configuration. -/
theorem C5_amended_defaulting_witness :
    icrOf {} = 10 ∧ isfOf {} = 50 ∧ targetOf {} = 100 ∧ enforceProtPct {} = 0 :=
  ⟨C5_amended_defaulting.2.1 {} (Or.inl rfl) (Or.inl rfl),
   C5_amended_defaulting.2.2.1 {} (Or.inl rfl) (Or.inl rfl),
   C5_amended_defaulting.2.2.2.1 {} (Or.inl rfl),
   C5_amended_defaulting.2.2.2.2 {} rfl⟩

/-- C8 counterexample: the locale parser is not idempotent on already
numeric input; applied to the number 1.5 it renders it as the text 1.5,
strips the dot as a thousands separator and returns 15. -/
theorem C8_counterexample_not_idempotent : num (.jnum (3 / 2)) ≠ (3 / 2 : ℚ) :=
  rat_ne_of_num (by with_unfolding_all decide)

/-- C8 amended: the parser is idempotent exactly on integral numeric input;
for a number whose rendering carries a fractional part the dot is stripped
as a thousands separator, scaling the value (for 1.5 the result is 15). -/
theorem C8_amended_integer_idempotence (z : ℤ) : num (.jnum (z : ℚ)) = (z : ℚ) :=
  num_int z

/-- C9: the locale parser treats dots as thousands separators and the comma
as the decimal separator, and maps null and unparseable input to 0; it is
total (never throws), and every input whose normalised text fails to parse
yields 0. -/
theorem C9_locale_parser_contract :
    numBR ("1.234,5") = 1234.5 ∧ numBR ("abc") = 0 ∧ num .jnull = 0 ∧
    ∀ v : JSVal, parseFloatQ (commaToDot (removeDots (jsValToChars v))) = none →
      num v = 0 := by
  refine ⟨Rat.ext (by with_unfolding_all decide) (by with_unfolding_all decide),
    by with_unfolding_all decide, by with_unfolding_all decide, ?_⟩
  intro v h
  rw [num, h]
  rfl

/-- Witness for C9: the universal part applied to a concrete unparseable
string. -/
theorem C9_locale_parser_contract_witness : num (.jstr ("x")) = 0 :=
  C9_locale_parser_contract.2.2.2 (.jstr ("x")) (by with_unfolding_all decide)

/-- C10: a cell whose numeric text is preceded by the tilde marker that the
system prompt prescribes for conservative estimates parses to 0, and such
an item therefore contributes nothing to the table-scan protein and fat
sums: in the concrete table the tilde row contributes 0 and only the plain
row is counted. -/
theorem C10_tilde_cells_contribute_zero :
    (∀ rest : List Char, numBR ⟨'~' :: rest⟩ = 0) ∧
    (parseProtGordFromTable (tildeTable).data).prot_g = 3 ∧
    (parseProtGordFromTable (tildeTable).data).gord_g = 1 := by
  refine ⟨fun rest => rfl, ?_, ?_⟩ <;>
    exact Rat.ext (by with_unfolding_all decide) (by with_unfolding_all decide)

/-- C3 counterexample: the persisted equivalent keeps the model-reported
value 5 while the data block of the stored narrative is patched to the
enforced table value 4.9, so the two structured values disagree. -/
theorem C3_counterexample_pre_block_mismatch :
    (chatPipeline true preMismatchHtml preMismatchCfg none ("x") 100).payload_pg = 5 ∧
    preBlockPgValue
      (chatPipeline true preMismatchHtml preMismatchCfg none ("x") 100).detalhes_html =
      some (49 / 10) ∧
    (5 : ℚ) ≠ 49 / 10 := by
  refine ⟨Rat.ext (by with_unfolding_all decide) (by with_unfolding_all decide), ?_, by norm_num⟩
  with_unfolding_all decide

/-- Replacing a present key rewrites its first binding, which lookup
reads back. -/
theorem jlookup_map_set : ∀ (t : List (List Char × JPrim)) (k : List Char) (v : JPrim),
    jobjHasKey t k = true →
    jlookup (t.map (fun kv => if kv.1 = k then (kv.1, v) else kv)) k = some v := by
  intro t k v
  induction t with
  | nil => intro h; simp [jobjHasKey] at h
  | cons kv t ih =>
    intro h
    simp only [List.map_cons]
    by_cases hk : kv.1 = k
    · rw [if_pos hk]
      simp [jlookup, hk]
    · rw [if_neg hk, jlookup, if_neg hk]
      apply ih
      simp only [jobjHasKey, List.any_cons, Bool.or_eq_true] at h
      rcases h with h2 | h2
      · exact absurd (beq_iff_eq.mp h2) hk
      · rw [jobjHasKey]; exact h2

/-- Appending a fresh key makes lookup of that key read its value. -/
theorem jlookup_append_self : ∀ (t : List (List Char × JPrim)) (k : List Char) (v : JPrim),
    jobjHasKey t k = false →
    jlookup (t ++ [(k, v)]) k = some v := by
  intro t k v
  induction t with
  | nil => intro _; simp [jlookup]
  | cons kv t ih =>
    intro h
    simp only [jobjHasKey, List.any_cons, Bool.or_eq_false_iff] at h
    have hk : kv.1 ≠ k := by
      intro he
      have h1 : (kv.1 == k) = false := h.1
      rw [he, beq_self_eq_true] at h1
      exact Bool.noConfusion h1
    rw [List.cons_append, jlookup, if_neg hk]
    apply ih
    rw [jobjHasKey]
    exact h.2

/-- Property assignment followed by lookup of the same key yields the
assigned value. -/
theorem jlookup_setKey (kvs : List (List Char × JPrim)) (k : List Char) (v : JPrim) :
    jlookup (jobjSetKey kvs k v) k = some v := by
  rw [jobjSetKey]
  by_cases h : jobjHasKey kvs k = true
  · rw [if_pos h]
    exact jlookup_map_set kvs k v h
  · rw [if_neg h]
    exact jlookup_append_self kvs k v (by simpa using h)

/-- C3 amended: the persisted field and the stored data block carry two
different quantities.  When neither the model-reported equivalent nor the
fallback is positive, the persisted field is the unrounded enforced
table-derived value; the data-block rewrite instead stores the one-decimal
rounding of the enforced value (the field it assigns reads back as that
rounding); so the two disagree whenever the model reports a positive
equivalent differing from the patched value (5 against 4.9, the
counterexample) and, even with no positive earlier source, whenever the
enforced value is not one-decimal: at the rounding-mismatch input the
persisted field is 0.33 while the stored block holds 0.3. -/
theorem C3_amended_pg_selection :
    (∀ (raw : String) (cfgRaw : Cfg) (bs : Option String) (msg : String) (glic : ℚ),
      ¬ (pickFromPre raw).pg_cho_equiv_g > 0 →
      ¬ (computePgFromHtml ⟨stripFences raw⟩
          (chatPercent (chatCfgMerged cfgRaw bs))).choEq > 0 →
      (chatPipeline true raw cfgRaw bs msg glic).payload_pg =
        (enforcePgRule (stripFences raw) (chatCfgMerged cfgRaw bs)).pg_cho_equiv_g) ∧
    (∀ (kvs : List (List Char × JPrim)) (pg : ℚ),
      jlookup (jobjSetKey kvs (("pg_cho_equiv_g").data) (.jnum (round1 pg)))
        (("pg_cho_equiv_g").data) = some (.jnum (round1 pg))) ∧
    (chatPipeline true c3RoundHtml c3RoundCfg none ("x") 100).payload_pg = 33 / 100 ∧
    preBlockPgValue
      (chatPipeline true c3RoundHtml c3RoundCfg none ("x") 100).detalhes_html =
      some (3 / 10) ∧
    ((33 : ℚ) / 100 ≠ 3 / 10) := by
  refine ⟨fun raw cfgRaw bs msg glic h1 h2 => by simp [chatPipeline, h1, h2],
    fun kvs pg => jlookup_setKey kvs (("pg_cho_equiv_g").data) (.jnum (round1 pg)),
    Rat.ext (by with_unfolding_all decide) (by with_unfolding_all decide), ?_, by norm_num⟩
  with_unfolding_all decide

/-- Witness for C3: at the rounding-mismatch input both non-positivity
hypotheses hold concretely and the persisted field is the unrounded
enforced value. -/
theorem C3_amended_pg_selection_witness :
    (chatPipeline true c3RoundHtml c3RoundCfg none ("x") 100).payload_pg =
      (enforcePgRule (stripFences c3RoundHtml) (chatCfgMerged c3RoundCfg none)).pg_cho_equiv_g :=
  C3_amended_pg_selection.1 c3RoundHtml c3RoundCfg none ("x") 100
    (by with_unfolding_all decide) (by with_unfolding_all decide)

/-- C4 counterexample: on a model timeout the text route returns an error
response with status 504 and ok false, so the failure is propagated to
the caller rather than degraded. -/
theorem C4_counterexample_timeout_is_error :
    chatCatch ("Timeout IA (chat-texto)") = (504, false) := by
  with_unfolding_all decide

/-- C4 amended: only the missing-model-client case degrades in the text
route (placeholder narrative, zero macros, correction still computed and
the immediate protein-fat dose 0); a thrown model failure yields an error
response there (504 for a timeout message, else 500); the image route
degrades to a successful body with zero totals and a placeholder but
carries no dose fields at all. -/
theorem C4_amended_degradation :
    (∀ (raw : String) (cfgRaw : Cfg) (bs : Option String) (msg : String) (glic : ℚ),
      (chatPipeline false raw cfgRaw bs msg glic).carbo_g = 0 ∧
      (chatPipeline false raw cfgRaw bs msg glic).pg_cho_equiv_g = 0 ∧
      (chatPipeline false raw cfgRaw bs msg glic).detalhes_html =
        ("<em>Análise automática indisponível.</em>").data ∧
      (chatPipeline false raw cfgRaw bs msg glic).doses.doseCor =
        max 0 ((glic - targetOf (chatCfgMerged cfgRaw bs)) / isfOf (chatCfgMerged cfgRaw bs)) ∧
      (chatPipeline false raw cfgRaw bs msg glic).doses.dosePg = 0 ∧
      (chatPipeline false raw cfgRaw bs msg glic).doses.rapidTotalU =
        r0 ((chatPipeline false raw cfgRaw bs msg glic).doses.doseCor)) ∧
    (∀ msg : String,
      chatCatch msg = (if jsStartsWith msg ("Timeout") then 504 else 500, false)) ∧
    chatImageCatchBody.ok = true ∧ chatImageCatchBody.carbo_g = 0 ∧
    chatImageCatchBody.pg_cho_equiv_g = 0 := by
  refine ⟨fun raw cfgRaw bs msg glic => ?_, fun msg => rfl, rfl, rfl, rfl⟩
  refine ⟨rfl, rfl, rfl, ?_, ?_, ?_⟩
  · simp [chatPipeline, chatDoses, zero_div]
  · simp [chatPipeline, chatDoses]
  · simp [chatPipeline, chatDoses, zero_div]

/-- C6 counterexample: applying the reconciliation twice to a narrative in
the mandated shape does not reproduce the markup of a single application:
the second application strips the whitespace that followed the
re-inserted breakdown block and inserts a fresh newline after the anchor,
so the two results differ in whitespace. -/
theorem C6_counterexample_not_idempotent :
    reconcileNarrative (reconcileNarrative idemHtml preMismatchCfg 0 0) preMismatchCfg 0 0 ≠
      reconcileNarrative idemHtml preMismatchCfg 0 0 := by
  with_unfolding_all decide

/-! ### Occurrence-counting lemmas for the block-uniqueness claim -/

theorem sw_self_append (p y : List Char) : startsWithL p (p ++ y) = true := by
  induction p with
  | nil => rfl
  | cons c t ih => simp [startsWithL, ih]

theorem sw_get {pat l : List Char} (h : startsWithL pat l = true) :
    ∀ k, k < pat.length → pat.get? k = l.get? k := by
  induction pat generalizing l with
  | nil => intro k hk; simp at hk
  | cons p ps ih =>
    intro k hk
    cases l with
    | nil => simp [startsWithL] at h
    | cons c t =>
      rw [startsWithL, Bool.and_eq_true] at h
      have h1 : c = p := of_decide_eq_true h.1
      cases k with
      | zero => simp [h1]
      | succ m =>
        simp only [List.get?_cons_succ]
        exact ih h.2 m (by simpa using hk)

theorem sw_take {pat x : List Char} :
    ∀ {i : ℕ}, startsWithL pat (x.take i) = true → startsWithL pat x = true := by
  induction pat generalizing x with
  | nil => intro i _; rfl
  | cons p ps ih =>
    intro i h
    cases x with
    | nil => simp [List.take_nil, startsWithL] at h
    | cons c t =>
      cases i with
      | zero => simp [List.take_zero, startsWithL] at h
      | succ m =>
        rw [List.take_succ_cons] at h
        rw [startsWithL, Bool.and_eq_true] at h ⊢
        exact ⟨h.1, ih h.2⟩

theorem countOccur_nil {pat : List Char} (hp : pat ≠ []) : countOccur pat [] = 0 := by
  obtain ⟨q, qs, rfl⟩ := List.exists_cons_of_ne_nil hp
  simp [countOccur, startsWithL]

theorem countOccur_take_le (pat : List Char) (hp : pat ≠ []) (x : List Char) :
    ∀ i : ℕ, countOccur pat (x.take i) ≤ countOccur pat x := by
  induction x with
  | nil => intro i; simp [List.take_nil]
  | cons c t ih =>
    intro i
    cases i with
    | zero => simp [List.take_zero, countOccur_nil hp]
    | succ m =>
      rw [List.take_succ_cons, countOccur, countOccur]
      apply Nat.add_le_add
      · by_cases hA : startsWithL pat (c :: t.take m) = true
        · have hB : startsWithL pat (c :: t) = true := by
            have : (c :: t).take (m + 1) = c :: t.take m := List.take_succ_cons
            exact sw_take (by rw [this]; exact hA)
          simp [hA, hB]
        · simp [hA]
      · exact ih m

theorem countOccur_drop_le (pat x : List Char) :
    ∀ i : ℕ, countOccur pat (x.drop i) ≤ countOccur pat x := by
  induction x with
  | nil => intro i; simp [List.drop_nil]
  | cons c t ih =>
    intro i
    cases i with
    | zero => simp [List.drop_zero]
    | succ m =>
      rw [List.drop_succ_cons]
      calc countOccur pat (t.drop m) ≤ countOccur pat t := ih m
        _ ≤ countOccur pat (c :: t) := by rw [countOccur]; omega

theorem sw_frontier (pat : List Char) :
    ∀ (x m r : List Char), m ≠ [] → (∀ c ∈ m, c ∉ pat) →
      startsWithL pat (x ++ m ++ r) = startsWithL pat x := by
  induction pat with
  | nil => intro x m r _ _; rfl
  | cons p ps ih =>
    intro x m r hm hmem
    cases x with
    | nil =>
      rcases m with _ | ⟨c, m2⟩
      · exact absurd rfl hm
      · have hcp : c ≠ p := fun he => hmem c (by simp) (by simp [he])
        simp [startsWithL, hcp]
    | cons d x2 =>
      simp only [List.cons_append, startsWithL]
      show (decide (d = p) && startsWithL ps (x2 ++ m ++ r)) =
        (decide (d = p) && startsWithL ps x2)
      rw [ih x2 m r hm (fun c hc hin => hmem c hc (List.mem_cons_of_mem _ hin))]

theorem countOccur_head_skip {q : Char} {qs : List Char} :
    ∀ (x y : List Char), (∀ c ∈ x, c ≠ q) →
      countOccur (q :: qs) (x ++ y) = countOccur (q :: qs) y := by
  intro x
  induction x with
  | nil => intro y _; rfl
  | cons c x2 ih =>
    intro y h
    rw [List.cons_append, countOccur]
    have hsw : startsWithL (q :: qs) (c :: (x2 ++ y)) = false := by
      simp [startsWithL, h c (List.mem_cons_self c x2)]
    rw [hsw, ih y (fun c hc => h c (List.mem_cons_of_mem _ hc))]
    simp

theorem countOccur_self {q : Char} {qs : List Char} (hq : ∀ c ∈ qs, c ≠ q)
    (y : List Char) :
    countOccur (q :: qs) ((q :: qs) ++ y) = 1 + countOccur (q :: qs) y := by
  rw [List.cons_append, countOccur]
  have hsw : startsWithL (q :: qs) (q :: (qs ++ y)) = true := by
    have := sw_self_append (q :: qs) y
    rwa [List.cons_append] at this
  rw [hsw, countOccur_head_skip qs y hq]
  simp

theorem countOccur_sep (pat : List Char) (hp : pat ≠ []) :
    ∀ (x m r : List Char), m ≠ [] → (∀ c ∈ m, c ∉ pat) →
      countOccur pat (x ++ m ++ r) = countOccur pat x + countOccur pat r := by
  have notin_append : ∀ (m r : List Char), (∀ c ∈ m, c ∉ pat) →
      countOccur pat (m ++ r) = countOccur pat r := by
    intro m
    induction m with
    | nil => intro r _; rfl
    | cons c m2 ihm =>
      intro r hmem
      obtain ⟨q, qs, hq⟩ := List.exists_cons_of_ne_nil hp
      have hcp : c ≠ q := fun he => hmem c (by simp) (by simp [hq, he])
      rw [List.cons_append, countOccur]
      have hsw : startsWithL pat (c :: (m2 ++ r)) = false := by
        rw [hq]
        simp [startsWithL, hcp]
      rw [hsw, ihm r (fun d hd => hmem d (List.mem_cons_of_mem _ hd))]
      simp
  intro x
  induction x with
  | nil =>
    intro m r hm hmem
    simp only [List.nil_append]
    rw [notin_append m r hmem, countOccur_nil hp]
    omega
  | cons d x2 ih =>
    intro m r hm hmem
    have hassoc : (d :: x2) ++ m ++ r = d :: (x2 ++ m ++ r) := by simp
    rw [hassoc, countOccur, ih m r hm hmem]
    have hfr := sw_frontier pat (d :: x2) m r hm hmem
    rw [show d :: (x2 ++ m ++ r) = (d :: x2) ++ m ++ r by simp] at *
    rw [hfr]
    rw [countOccur]
    omega

theorem countOccur_mismatch_skip (pat : List Char) :
    ∀ (x y : List Char),
      (∀ i, i < x.length → ∃ k, k < pat.length ∧ i + k < x.length ∧
        pat.get? k ≠ x.get? (i + k)) →
      countOccur pat (x ++ y) = countOccur pat y := by
  intro x
  induction x with
  | nil => intro y _; rfl
  | cons c x2 ih =>
    intro y h
    rw [List.cons_append, countOccur]
    have hsw : startsWithL pat (c :: (x2 ++ y)) = false := by
      cases hb : startsWithL pat (c :: (x2 ++ y)) with
      | false => rfl
      | true =>
        exfalso
        obtain ⟨k, hk1, hk2, hk3⟩ := h 0 (by simp)
        apply hk3
        rw [Nat.zero_add] at hk2 ⊢
        rw [sw_get hb k hk1]
        rw [show c :: (x2 ++ y) = (c :: x2) ++ y from rfl]
        exact List.get?_append hk2
    rw [hsw]
    have hshift : ∀ i, i < x2.length → ∃ k, k < pat.length ∧ i + k < x2.length ∧
        pat.get? k ≠ x2.get? (i + k) := by
      intro i hi
      obtain ⟨k, hk1, hk2, hk3⟩ := h (i + 1) (by simp; omega)
      refine ⟨k, hk1, by simp at hk2; omega, ?_⟩
      intro he
      apply hk3
      rw [show i + 1 + k = (i + k) + 1 by omega, List.get?_cons_succ]
      exact he
    rw [ih y hshift]
    simp

/-- Every digit character differs from the capital letter P heading the
breakdown marker. -/
theorem digitChar_ne_P (k : ℕ) : digitChar k ≠ 'P' := by
  unfold digitChar
  split <;> decide

theorem mem_natDigits_ne_P {n : ℕ} {c : Char} (h : c ∈ natDigits n) : c ≠ 'P' :=
  isDigitC_ne (natDigits_digit n c h) 'P' (by decide)

theorem fracDigitsAux_ne_P : ∀ f q, ∀ c ∈ fracDigitsAux f q, c ≠ 'P' := by
  intro f
  induction f with
  | zero => intro q c h; simp [fracDigitsAux] at h
  | succ f ih =>
    intro q c h
    rw [fracDigitsAux] at h
    by_cases hq : q = 0
    · rw [if_pos hq] at h; simp at h
    · rw [if_neg hq] at h
      have h2 : c ∈ digitChar (⌊q * 10⌋).toNat ::
          fracDigitsAux f (q * 10 - ((⌊q * 10⌋ : ℤ) : ℚ)) := h
      rcases List.mem_cons.mp h2 with h3 | h3
      · subst h3; exact digitChar_ne_P _
      · exact ih _ _ h3

theorem ratToDecChars_ne_P (q : ℚ) : ∀ c ∈ ratToDecChars q, c ≠ 'P' := by
  intro c h
  rw [ratToDecChars] at h
  have h2 : c ∈ (if q < 0 then ['-'] else []) ++ (natDigits (⌊|q|⌋).toNat ++
      (if |q| - ((⌊|q|⌋ : ℤ) : ℚ) = 0 then []
       else '.' :: fracDigitsAux 25 (|q| - ((⌊|q|⌋ : ℤ) : ℚ)))) := by
    simpa [List.append_assoc] using h
  rcases List.mem_append.mp h2 with h3 | h3
  · split at h3
    · simp at h3; subst h3; decide
    · simp at h3
  · rcases List.mem_append.mp h3 with h4 | h4
    · exact mem_natDigits_ne_P h4
    · split at h4
      · simp at h4
      · rcases List.mem_cons.mp h4 with h5 | h5
        · subst h5; decide
        · exact fracDigitsAux_ne_P _ _ c h5

theorem intDigits_ne_P (z : ℤ) : ∀ c ∈ intDigits z, c ≠ 'P' := by
  intro c h
  rw [intDigits] at h
  split at h
  · rcases List.mem_cons.mp h with h2 | h2
    · subst h2; decide
    · exact mem_natDigits_ne_P h2
  · exact mem_natDigits_ne_P h

theorem dotToComma_mem : ∀ l : List Char, ∀ c ∈ dotToComma l, c ∈ l ∨ c = ',' := by
  intro l
  induction l with
  | nil => intro c h; simp [dotToComma] at h
  | cons d t ih =>
    intro c h
    rw [dotToComma] at h
    by_cases hd : d = '.'
    · rw [if_pos hd] at h
      rcases List.mem_cons.mp h with h2 | h2
      · right; exact h2
      · left; exact List.mem_cons_of_mem _ h2
    · rw [if_neg hd] at h
      rcases List.mem_cons.mp h with h2 | h2
      · left; simp [h2]
      · rcases ih c h2 with h3 | h3
        · left; exact List.mem_cons_of_mem _ h3
        · right; exact h3

theorem toFixed1Chars_ne_P (q : ℚ) : ∀ c ∈ toFixed1Chars q, c ≠ 'P' := by
  intro c h
  rw [toFixed1Chars] at h
  have h2 : c ∈ (if (⌊q * 10 + 1 / 2⌋ : ℤ) < 0 then ['-'] else []) ++
      (natDigits ((⌊q * 10 + 1 / 2⌋ : ℤ).natAbs / 10) ++
       '.' :: [digitChar ((⌊q * 10 + 1 / 2⌋ : ℤ).natAbs % 10)]) := by
    simpa [List.append_assoc] using h
  rcases List.mem_append.mp h2 with h3 | h3
  · split at h3
    · simp at h3; subst h3; decide
    · simp at h3
  · rcases List.mem_append.mp h3 with h4 | h4
    · exact mem_natDigits_ne_P h4
    · rcases List.mem_cons.mp h4 with h5 | h5
      · subst h5; decide
      · simp at h5; subst h5; exact digitChar_ne_P _

theorem jsNumComma_ne_P (q : ℚ) : ∀ c ∈ jsNumComma q, c ≠ 'P' := by
  intro c h
  rcases dotToComma_mem _ c h with h2 | h2
  · exact ratToDecChars_ne_P q c h2
  · subst h2; decide

theorem dotToComma_intDigits_ne_P (z : ℤ) : ∀ c ∈ dotToComma (intDigits z), c ≠ 'P' := by
  intro c h
  rcases dotToComma_mem _ c h with h2 | h2
  · exact intDigits_ne_P z c h2
  · subst h2; decide

theorem dotToComma_toFixed1_ne_P (q : ℚ) :
    ∀ c ∈ dotToComma (toFixed1Chars q), c ≠ 'P' := by
  intro c h
  rcases dotToComma_mem _ c h with h2 | h2
  · exact toFixed1Chars_ne_P q c h2
  · subst h2; decide

theorem joinPartsChars_ne_P : ∀ ps : List ℚ, ∀ c ∈ joinPartsChars ps, c ≠ 'P' := by
  intro ps
  induction ps with
  | nil => intro c h; simp [joinPartsChars] at h
  | cons v rest ih =>
    intro c h
    rcases rest with _ | ⟨w, rest2⟩
    · exact jsNumComma_ne_P v c h
    · have h2 : c ∈ jsNumComma v ++ ' ' :: '+' :: ' ' :: joinPartsChars (w :: rest2) := h
      rcases List.mem_append.mp h2 with h3 | h3
      · exact jsNumComma_ne_P v c h3
      · simp only [List.mem_cons] at h3
        rcases h3 with rfl | rfl | rfl | h4
        · decide
        · decide
        · decide
        · exact ih c h4

theorem sumText_ne_P (ps : List ℚ) (t : ℚ) : ∀ c ∈ sumText ps t, c ≠ 'P' := by
  intro c h
  rw [sumText] at h
  split at h
  · rcases List.mem_append.mp h with h2 | h2
    · exact jsNumComma_ne_P t c h2
    · simp at h2; subst h2; decide
  · rcases List.mem_append.mp h with h2 | h2
    · rcases List.mem_append.mp h2 with h3 | h3
      · rcases List.mem_append.mp h3 with h4 | h4
        · exact joinPartsChars_ne_P ps c h4
        · have h5 : c ∈ [' ', '=', ' '] := h4
          simp only [List.mem_cons] at h5
          rcases h5 with rfl | rfl | rfl | h6
          · decide
          · decide
          · decide
          · simp at h6
      · exact jsNumComma_ne_P t c h3
    · simp at h2; subst h2; decide

theorem pgMarker_cons : pgMarker = 'P' :: ("roteínas + Gorduras:").data := rfl

theorem count_skip_safe (x : List Char) (hx : ∀ c ∈ x, c ≠ 'P') (y : List Char) :
    countOccur pgMarker (x ++ y) = countOccur pgMarker y := by
  rw [pgMarker_cons]
  exact countOccur_head_skip x y hx

theorem count_self_marker (y : List Char) :
    countOccur pgMarker (pgMarker ++ y) = 1 + countOccur pgMarker y := by
  rw [pgMarker_cons]
  exact countOccur_self (by decide) y

theorem count_skip_proteina (y : List Char) :
    countOccur pgMarker (("Proteína: ").data ++ y) = countOccur pgMarker y :=
  countOccur_mismatch_skip pgMarker (("Proteína: ").data) y (by decide)

/-- The canonical breakdown block holds exactly one marker occurrence,
wherever it is spliced. -/
theorem countOccur_bloco (a b c d e f : ℚ) (pp pg : List ℚ) (pc : ℚ)
    (r : List Char) :
    countOccur pgMarker (blocoChars a b c d e f pp pg pc ++ r) =
      1 + countOccur pgMarker r := by
  rw [blocoChars]
  rw [show ("<b>Proteínas + Gorduras:</b><br>").data =
      ("<b>").data ++ pgMarker ++ ("</b><br>").data by decide]
  simp only [List.append_assoc]
  rw [count_skip_safe (("<li>").data) (by decide)]
  rw [count_skip_safe (("<b>").data) (by decide)]
  rw [count_self_marker]
  rw [count_skip_safe (("</b><br>").data) (by decide)]
  rw [count_skip_proteina]
  rw [count_skip_safe (sumText pp a) (sumText_ne_P pp a)]
  rw [count_skip_safe ((" ×4 = ").data) (by decide)]
  rw [count_skip_safe (dotToComma (intDigits (r0 c))) (dotToComma_intDigits_ne_P _)]
  rw [count_skip_safe ((" kcal × ").data) (by decide)]
  rw [count_skip_safe (ratToDecChars pc) (ratToDecChars_ne_P pc)]
  rw [count_skip_safe (("% = ").data) (by decide)]
  rw [count_skip_safe (dotToComma (toFixed1Chars (c * (pc / 100))))
    (dotToComma_toFixed1_ne_P _)]
  rw [count_skip_safe ((" kcal<br>").data) (by decide)]
  rw [count_skip_safe (("Gordura: ").data) (by decide)]
  rw [count_skip_safe (sumText pg b) (sumText_ne_P pg b)]
  rw [count_skip_safe ((" ×9 = ").data) (by decide)]
  rw [count_skip_safe (dotToComma (intDigits (r0 d))) (dotToComma_intDigits_ne_P _)]
  rw [count_skip_safe ((" kcal × 10% = ").data) (by decide)]
  rw [count_skip_safe (dotToComma (toFixed1Chars (d * (0.10 : ℚ))))
    (dotToComma_toFixed1_ne_P _)]
  rw [count_skip_safe ((" kcal<br>").data) (by decide)]
  rw [count_skip_safe (("Carboidratos (p+g) = ").data) (by decide)]
  rw [count_skip_safe (dotToComma (toFixed1Chars (c * (pc / 100))))
    (dotToComma_toFixed1_ne_P _)]
  rw [count_skip_safe ((" + ").data) (by decide)]
  rw [count_skip_safe (dotToComma (toFixed1Chars (d * (0.10 : ℚ))))
    (dotToComma_toFixed1_ne_P _)]
  rw [count_skip_safe ((" = ").data) (by decide)]
  rw [count_skip_safe (dotToComma (toFixed1Chars e)) (dotToComma_toFixed1_ne_P _)]
  rw [count_skip_safe ((" kcal ÷10 = <b>").data) (by decide)]
  rw [count_skip_safe (dotToComma (toFixed1Chars f)) (dotToComma_toFixed1_ne_P _)]
  rw [count_skip_safe ((" g CHO</b>").data) (by decide)]
  rw [count_skip_safe (("</li>").data) (by decide)]

/-- Splicing the breakdown block after a marker-free head inserts exactly
one occurrence. -/
theorem countOccur_insert (T D : List Char) (a b c d e f : ℚ) (pp pg : List ℚ)
    (pc : ℚ) (hT : countOccur pgMarker T = 0) :
    countOccur pgMarker (T ++ '\n' :: (blocoChars a b c d e f pp pg pc ++ D)) =
      1 + countOccur pgMarker D := by
  rw [show T ++ '\n' :: (blocoChars a b c d e f pp pg pc ++ D) =
      T ++ ['\n'] ++ (blocoChars a b c d e f pp pg pc ++ D) by simp]
  rw [countOccur_sep pgMarker (by decide) T ['\n'] _ (by simp) (by decide)]
  rw [hT, countOccur_bloco]
  omega

/-- C6 (amended): the reconciliation never produces two protein-fat
breakdown blocks.  Whenever the stripping pass removes every occurrence of
the breakdown marker from the input and the data-block rewrite does not
increase the marker count, the reconciled markup holds at most one
occurrence of the marker — the single canonical block inserted by
patchPgTotals (idempotence itself fails: the second application drifts
whitespace, as the counterexample shows). -/
theorem C6_amended_single_block (s : List Char) (cfg : Cfg)
    (h1 : countOccur pgMarker (stripExtraPgLis (stripExtraPgLis s)) = 0)
    (h2 : countOccur pgMarker (enforcePgRule s cfg).html ≤
          countOccur pgMarker (enforceStage1 s cfg)) :
    countOccur pgMarker (enforcePgRule s cfg).html ≤ 1 := by
  refine le_trans h2 ?_
  simp only [enforceStage1, patchPgTotals]
  cases hc : findFirstN carbLiM (stripExtraPgLis (stripExtraPgLis s)) with
  | some v =>
    obtain ⟨i, n⟩ := v
    have hT : countOccur pgMarker ((stripExtraPgLis (stripExtraPgLis s)).take (i + n)) = 0 :=
      Nat.le_zero.mp (h1 ▸ countOccur_take_le pgMarker (by decide) _ (i + n))
    have hD : countOccur pgMarker ((stripExtraPgLis (stripExtraPgLis s)).drop (i + n)) = 0 :=
      Nat.le_zero.mp (h1 ▸ countOccur_drop_le pgMarker _ (i + n))
    rw [countOccur_insert _ _ _ _ _ _ _ _ _ _ _ hT, hD]
  | none =>
    cases ht : findFirstN totaisHdrM (stripExtraPgLis (stripExtraPgLis s)) with
    | some v =>
      obtain ⟨i, n⟩ := v
      have hT : countOccur pgMarker ((stripExtraPgLis (stripExtraPgLis s)).take (i + n)) = 0 :=
        Nat.le_zero.mp (h1 ▸ countOccur_take_le pgMarker (by decide) _ (i + n))
      have hD : countOccur pgMarker ((stripExtraPgLis (stripExtraPgLis s)).drop (i + n)) = 0 :=
        Nat.le_zero.mp (h1 ▸ countOccur_drop_le pgMarker _ (i + n))
      rw [countOccur_insert _ _ _ _ _ _ _ _ _ _ _ hT, hD]
    | none =>
      rw [h1]
      omega

/-- Witness: on the totals-header markup with the mismatch configuration
both hypotheses hold concretely and the reconciled markup carries exactly
one breakdown marker. -/
theorem C6_amended_single_block_witness :
    countOccur pgMarker (enforcePgRule idemHtml preMismatchCfg).html ≤ 1 :=
  C6_amended_single_block idemHtml preMismatchCfg (by with_unfolding_all decide)
    (by with_unfolding_all decide)

end GlicoCerto
